import Mathlib

/-!
The commands merge and verify of i18n4go, on string catalogs.

A shallow embedding of `cmds/verify_strings.go` and `cmds/merge_string.go`,
followed by theorems about the embedded functions.

Conventions of the embedding.

* A Go `error` is its message: `Option String`, `none` being `nil`.
* A Go `panic` is the outer `Option` of a result being `none`.
* A Go `map[string]T` is an association list with pairwise distinct keys, kept
  in insertion order.  Go leaves the iteration order of a map unspecified, so
  a statement about the values of a map is to be read up to permutation.
* Printing (`Println`, `Printf`) has no effect on any result and is left out.
* The functions of package `common` and of the Go library that the two files
  call but do not define are fields of `Externals`.
-/

set_option autoImplicit false

namespace I18n4go

/-! ## Data model -/

/-- A decoded JSON value, with the shapes `encoding/json` stores in an
`interface{}`: `nil`, `bool`, `float64` (kept as its literal), `string`,
`[]interface{}` and `map[string]interface{}` (pairs in iteration order). -/
inductive Json where
  | null
  | bool (b : Bool)
  | number (literal : String)
  | str (s : String)
  | arr (items : List Json)
  | obj (pairs : List (String × Json))

/-- The struct `I18nStringInfo` of verify_strings.go. -/
structure I18nStringInfo where
  ID : String
  Translation : Json
  Modified : Bool

/-- The inner type switch of `Translations`: a map value contributes when it
is a string, and is skipped otherwise. -/
def stringOf : Json → Option String
  | Json.str s => some s
  | _ => none

/-- The method `I18nStringInfo.Translations` (verify_strings.go 102-117).
`none` is the `panic` of the default case. -/
def I18nStringInfo.Translations (info : I18nStringInfo) : Option (List String) :=
  match info.Translation with
  | Json.str v => some [v]
  | Json.obj pairs => some (pairs.filterMap (fun kv => stringOf kv.2))
  | _ => none

/-! ## The file system seen by verify -/

/-- The files as `LoadI18nStringInfos` and `ioutil.WriteFile` see them.
`load p` is what `LoadI18nStringInfos p` returns, `writeErr p` the error a
write to `p` fails with (if it fails), `written` the catalogs written so far,
oldest first. -/
structure FileSystem where
  load : String → Except String (List I18nStringInfo)
  writeErr : String → Option String
  written : List (String × List I18nStringInfo)

/-- The call `LoadI18nStringInfos` (verify_strings.go 119-137). -/
def LoadI18nStringInfos (fs : FileSystem) (fileName : String) :
    Except String (List I18nStringInfo) :=
  fs.load fileName

/-- The call `ioutil.WriteFile` of a marshalled catalog: it fails with
`writeErr`, or records the catalog, which is what a later load of the same
path decodes. -/
def FileSystem.writeFile (fs : FileSystem) (fileName : String)
    (infos : List I18nStringInfo) : Except String FileSystem :=
  match fs.writeErr fileName with
  | some e => Except.error e
  | none =>
    Except.ok
      { load := fun p => if p = fileName then Except.ok infos else fs.load p
        writeErr := fs.writeErr
        written := fs.written ++ [(fileName, infos)] }

/-- What the two source files take from package `common` and from the Go
library without defining it. -/
structure Externals where
  /-- The function `common.IsTemplatedString`. -/
  IsTemplatedString : String → Bool
  /-- The function `common.GetTemplatedStringArgs`. -/
  GetTemplatedStringArgs : String → List String
  /-- The function `common.CheckFile`: file name and directory, or an error. -/
  CheckFile : FileSystem → String → Except String (String × String)
  /-- The function `filepath.Join` on two elements. -/
  Join : String → String → String
  /-- The call `strings.Replace s old new (-1)`. -/
  Replace : String → String → String → String

/-- The fields of `common.Options` the two commands read. -/
structure Options where
  DryRunFlag : Bool
  VerboseFlag : Bool
  RecurseFlag : Bool
  SourceLanguageFlag : String
  DirnameFlag : String

/-! ## A Go map from id to entry -/

/-- A `map[string]I18nStringInfo`, in insertion order. -/
abbrev InfoMap := List (String × I18nStringInfo)

/-- The test `_, ok := m[k]`. -/
def InfoMap.has (m : InfoMap) (k : String) : Bool :=
  m.any (fun kv => kv.1 == k)

/-- The lookup `m[k]`. -/
def InfoMap.find (m : InfoMap) (k : String) : Option I18nStringInfo :=
  (m.find? (fun kv => kv.1 == k)).map Prod.snd

/-- The assignment `m[k] = v`. -/
def InfoMap.set (m : InfoMap) (k : String) (v : I18nStringInfo) : InfoMap :=
  if m.has k then m.map (fun kv => if kv.1 == k then (k, v) else kv)
  else m ++ [(k, v)]

/-- The call `delete(m, k)`. -/
def InfoMap.delete (m : InfoMap) (k : String) : InfoMap :=
  m.filter (fun kv => !(kv.1 == k))

/-- The function `keysForI18nStringInfoMap` (verify_strings.go 310-316). -/
def keysForI18nStringInfoMap (inputMap : InfoMap) : List String :=
  inputMap.map Prod.fst

/-- The function `valuesForI18nStringInfoMap` (verify_strings.go 318-324). -/
def valuesForI18nStringInfoMap (inputMap : InfoMap) : List I18nStringInfo :=
  inputMap.map Prod.snd

/-- The function `keysForI18nStringInfos` (verify_strings.go 302-308). -/
def keysForI18nStringInfos (infos : List I18nStringInfo) : List String :=
  infos.map (fun info => info.ID)

/-- The loop of `CreateI18nStringInfoMap`, from the map built so far. -/
def createMapFrom : InfoMap → List I18nStringInfo → Except String InfoMap
  | inputMap, [] => Except.ok inputMap
  | inputMap, info :: rest =>
    if !(inputMap.has info.ID) then createMapFrom (inputMap.set info.ID info) rest
    else Except.error ("Duplicated key found: " ++ info.ID)

/-- The function `CreateI18nStringInfoMap` (verify_strings.go 139-153). -/
def CreateI18nStringInfoMap (infos : List I18nStringInfo) : Except String InfoMap :=
  createMapFrom [] infos

/-! ## Placeholder check -/

/-- The body of the loop over `translations` in
`isTemplatedStringTranslationInvalid` (verify_strings.go 257-297).  The maps
`argsMap` and `idArgMap` map every argument to itself, so a key test on them
is a membership test on the argument list. -/
def invalidAmong (X : Externals) (id : String) : List String → Bool
  | [] => false
  | translation :: rest =>
    if !(X.IsTemplatedString translation) then false
    else
      let translationArgs := X.GetTemplatedStringArgs translation
      let idArgs := X.GetTemplatedStringArgs id
      let missingArgs :=
        idArgs.filter (fun idArg => !(translationArgs.contains idArg) && idArg != "count")
      if missingArgs.length > 0 then true
      else
        let excessArgs :=
          translationArgs.filter (fun translationArg => !(idArgs.contains translationArg))
        if excessArgs.length > 0 then true
        else invalidAmong X id rest

/-- The method `isTemplatedStringTranslationInvalid` (verify_strings.go
252-300); `none` when `Translations` panics. -/
def isTemplatedStringTranslationInvalid (X : Externals) (stringInfo : I18nStringInfo) :
    Option Bool :=
  if !(X.IsTemplatedString stringInfo.ID) then some false
  else
    match stringInfo.Translations with
    | none => none
    | some translations => some (invalidAmong X stringInfo.ID translations)

/-! ## Verification -/

/-- The struct `verifyStrings` (verify_strings.go 18-27). -/
structure verifyStrings where
  options : Options
  InputFilename : String
  OutputDirname : String
  SourceLanguage : String
  LanguageFilenames : List String
  Languages : List String

/-- The method `determineTargetFilenames` (verify_strings.go 81-94). -/
def determineTargetFilenames (X : Externals) (vs : verifyStrings)
    (inputFilename : String) (inputFilePath : String) : List String :=
  if vs.LanguageFilenames.length != 0 then vs.LanguageFilenames
  else
    vs.Languages.map (fun lang =>
      X.Join inputFilePath (X.Replace inputFilename vs.SourceLanguage lang))

/-- The function `SaveI18nStringInfos` (verify_strings.go 155-172), as far as
the files go: the new file system and the returned error.  The catalogs it is
given are decoded JSON, on which `json.MarshalIndent` does not fail. -/
def SaveI18nStringInfos (options : Options) (fs : FileSystem)
    (infos : List I18nStringInfo) (fileName : String) : FileSystem × Option String :=
  if !options.DryRunFlag && infos.length != 0 then
    match fs.writeFile fileName infos with
    | Except.error e => (fs, some e)
    | Except.ok fs2 => (fs2, none)
  else (fs, none)

/-- The common body of the three `generate...DiffFile` methods
(verify_strings.go 326-375), which differ in the suffix only.  Returns the
file system, the diff file name and the error.  `CreateOutputDirsIfNeeded`
makes directories only; whether the write then succeeds is `writeErr`. -/
def generateDiffFile (X : Externals) (vs : verifyStrings) (fs : FileSystem)
    (suffix : String) (infos : List I18nStringInfo) (fileName : String) :
    FileSystem × String × Option String :=
  match X.CheckFile fs fileName with
  | Except.error e => (fs, "", some e)
  | Except.ok (name, pathName) =>
    let diffFilename := name ++ suffix
    let diffFilename :=
      if vs.OutputDirname != "" then X.Join vs.OutputDirname diffFilename
      else X.Join pathName diffFilename
    let saved := SaveI18nStringInfos vs.options fs infos diffFilename
    (saved.1, diffFilename, saved.2)

/-- The method `generateMissingKeysDiffFile` (verify_strings.go 326-341). -/
def generateMissingKeysDiffFile (X : Externals) (vs : verifyStrings) (fs : FileSystem)
    (missingStringInfos : List I18nStringInfo) (fileName : String) :
    FileSystem × String × Option String :=
  generateDiffFile X vs fs ".missing.diff.json" missingStringInfos fileName

/-- The method `generateExtraKeysDiffFile` (verify_strings.go 343-358). -/
def generateExtraKeysDiffFile (X : Externals) (vs : verifyStrings) (fs : FileSystem)
    (extraStringInfos : List I18nStringInfo) (fileName : String) :
    FileSystem × String × Option String :=
  generateDiffFile X vs fs ".extra.diff.json" extraStringInfos fileName

/-- The method `generateInvalidTranslationDiffFile` (verify_strings.go 360-375). -/
def generateInvalidTranslationDiffFile (X : Externals) (vs : verifyStrings)
    (fs : FileSystem) (invalidStringInfos : List I18nStringInfo) (fileName : String) :
    FileSystem × String × Option String :=
  generateDiffFile X vs fs ".invalid.diff.json" invalidStringInfos fileName

/-- The variables the loop over the target entries updates
(verify_strings.go 198-210). -/
structure Diff where
  inputMap : InfoMap
  targetExtraStringInfos : List I18nStringInfo
  targetInvalidStringInfos : List I18nStringInfo

/-- One turn of the loop over the target entries (verify_strings.go 200-209);
`none` when the placeholder check panics.  The check is reached only for a
templated id, as `&&` evaluates its right operand only then. -/
def verifyStep (X : Externals) (d : Diff) (stringInfo : I18nStringInfo) : Option Diff :=
  if d.inputMap.has stringInfo.ID then
    if X.IsTemplatedString stringInfo.ID then
      match isTemplatedStringTranslationInvalid X stringInfo with
      | none => none
      | some true =>
        some { inputMap := d.inputMap.delete stringInfo.ID
               targetExtraStringInfos := d.targetExtraStringInfos
               targetInvalidStringInfos := d.targetInvalidStringInfos ++ [stringInfo] }
      | some false =>
        some { inputMap := d.inputMap.delete stringInfo.ID
               targetExtraStringInfos := d.targetExtraStringInfos
               targetInvalidStringInfos := d.targetInvalidStringInfos }
    else
      some { inputMap := d.inputMap.delete stringInfo.ID
             targetExtraStringInfos := d.targetExtraStringInfos
             targetInvalidStringInfos := d.targetInvalidStringInfos }
  else
    some { inputMap := d.inputMap
           targetExtraStringInfos := d.targetExtraStringInfos ++ [stringInfo]
           targetInvalidStringInfos := d.targetInvalidStringInfos }

/-- The loop over the target entries (verify_strings.go 199-210). -/
def verifyLoop (X : Externals) : Diff → List I18nStringInfo → Option Diff
  | d, [] => some d
  | d, stringInfo :: rest =>
    match verifyStep X d stringInfo with
    | none => none
    | some d2 => verifyLoop X d2 rest

/-- The error of verify_strings.go 222. -/
def extraError (extra : List I18nStringInfo) : String :=
  "i18n4go: target file has extra i18n strings with IDs: " ++
    ",".intercalate (keysForI18nStringInfos extra)

/-- The error of verify_strings.go 234. -/
def invalidError (invalid : List I18nStringInfo) : String :=
  "i18n4go: target file has invalid i18n strings with IDs: " ++
    ",".intercalate (keysForI18nStringInfos invalid)

/-- The error of verify_strings.go 246. -/
def missingError (inputMap : InfoMap) : String :=
  "i18n4go: target file is missing i18n strings with IDs:\n" ++
    "\n".intercalate (keysForI18nStringInfoMap inputMap)

/-- One of the three blocks of verify_strings.go 213-247: when the set is not
empty its diff file is generated; a failure there is returned at once
(`Except.error`), otherwise `verficationError` is overwritten. -/
def diffBlock (nonEmpty : Bool) (generate : FileSystem → FileSystem × String × Option String)
    (message : String) (state : FileSystem × Option String) :
    Except (FileSystem × String) (FileSystem × Option String) :=
  if nonEmpty then
    match generate state.1 with
    | (fs2, _, some e) => Except.error (fs2, e)
    | (fs2, _, none) => Except.ok (fs2, some message)
  else Except.ok state

/-- The tail of `verify` (verify_strings.go 212-249): the three blocks in the
order extra, invalid, missing, then `return verficationError`. -/
def verifyReport (X : Externals) (vs : verifyStrings) (fs : FileSystem) (d : Diff)
    (targetFilename : String) : FileSystem × Option String :=
  let blocks : Except (FileSystem × String) (FileSystem × Option String) := do
    let s1 ← diffBlock (d.targetExtraStringInfos.length > 0)
      (fun f => generateExtraKeysDiffFile X vs f d.targetExtraStringInfos targetFilename)
      (extraError d.targetExtraStringInfos) (fs, none)
    let s2 ← diffBlock (d.targetInvalidStringInfos.length > 0)
      (fun f => generateInvalidTranslationDiffFile X vs f d.targetInvalidStringInfos
        targetFilename)
      (invalidError d.targetInvalidStringInfos) s1
    diffBlock (d.inputMap.length > 0)
      (fun f => generateMissingKeysDiffFile X vs f (valuesForI18nStringInfoMap d.inputMap)
        targetFilename)
      (missingError d.inputMap) s2
  match blocks with
  | Except.error (fs2, e) => (fs2, some e)
  | Except.ok (fs2, verficationError) => (fs2, verficationError)

/-- The method `verify` (verify_strings.go 174-250): the file system after the
call and the returned error, or `none` when the call panics.  The result of
the first `common.CheckFile` is dropped by the source. -/
def verify (X : Externals) (vs : verifyStrings) (fs : FileSystem)
    (inputFilename : String) (targetFilename : String) :
    Option (FileSystem × Option String) :=
  match LoadI18nStringInfos fs inputFilename with
  | Except.error e => some (fs, some e)
  | Except.ok inputI18nStringInfos =>
    if inputI18nStringInfos.length == 0 then
      some (fs, some ("i18n4go: Error input file: " ++ inputFilename ++ " is empty"))
    else
      match CreateI18nStringInfoMap inputI18nStringInfos with
      | Except.error e =>
        some (fs, some ("File has duplicated key: " ++ inputFilename ++ "\n" ++ e))
      | Except.ok inputMap =>
        match LoadI18nStringInfos fs targetFilename with
        | Except.error e => some (fs, some e)
        | Except.ok targetI18nStringInfos =>
          match verifyLoop X { inputMap := inputMap
                               targetExtraStringInfos := []
                               targetInvalidStringInfos := [] } targetI18nStringInfos with
          | none => none
          | some d => some (verifyReport X vs fs d targetFilename)

/-- The loop of `Run` over the target file names (verify_strings.go 71-76):
`err` is overwritten by every call of `verify`. -/
def runTargets (X : Externals) (vs : verifyStrings) :
    FileSystem → Option String → List String → Option (FileSystem × Option String)
  | fs, err, [] => some (fs, err)
  | fs, _, targetFilename :: rest =>
    match verify X vs fs vs.InputFilename targetFilename with
    | none => none
    | some (fs2, err2) => runTargets X vs fs2 err2 rest

/-- The method `verifyStrings.Run` (verify_strings.go 62-79). -/
def verifyStrings.Run (X : Externals) (vs : verifyStrings) (fs : FileSystem) :
    Option (FileSystem × Option String) :=
  match X.CheckFile fs vs.InputFilename with
  | Except.error e => some (fs, some e)
  | Except.ok (fileName, filePath) =>
    runTargets X vs fs none (determineTargetFilenames X vs fileName filePath)

/-! ## Placeholder tokens, from the specification -/

/-- Modelled from the spec: the scanner behind `common.GetTemplatedStringArgs`,
which is not among the sources.  The specification writes a placeholder token
as an argument name between braces (`Welcome {name}`).  `open` holds the
characters read since the last opening brace, newest first, when a token is
open; a closing brace after at least one character yields a name. -/
def scanTokens : Option (List Char) → List Char → List String
  | _, [] => []
  | cur, c :: cs =>
    if c = Char.ofNat 123 then scanTokens (some []) cs
    else if c = Char.ofNat 125 then
      match cur with
      | some (a :: acc) => String.mk (a :: acc).reverse :: scanTokens none cs
      | _ => scanTokens none cs
    else scanTokens (cur.map (fun acc => c :: acc)) cs

/-- Modelled from the spec: `extractArgs(s)` of the specification, standing for
`common.GetTemplatedStringArgs`, which is not among the sources: the distinct
argument names of the placeholder tokens of `s`. -/
def specGetTemplatedStringArgs (s : String) : List String :=
  (scanTokens none s.data).eraseDups

/-- Modelled from the spec: `isTemplated(s)` of the specification, standing for
`common.IsTemplatedString`, which is not among the sources: `s` contains at
least one placeholder token. -/
def specIsTemplatedString (s : String) : Bool :=
  !(scanTokens none s.data).isEmpty

/-- Modelled from the spec: the externals with the placeholder analyzer of the
specification.  `CheckFile` splits nothing and never fails, `Join` puts a
slash between its arguments, and `Replace` is the replacement of every
occurrence. -/
def specExternals : Externals where
  IsTemplatedString := specIsTemplatedString
  GetTemplatedStringArgs := specGetTemplatedStringArgs
  CheckFile := fun _ fileName => Except.ok (fileName, ".")
  Join := fun dir name => dir ++ "/" ++ name
  Replace := fun s old new => s.replace old new

/-! ## Merge -/

/-- An entry of a directory as `ioutil.ReadDir` lists it: a file, with what
`common.LoadI18nStringInfos` returns for it, or a directory with its own
listing. -/
inductive DirEntry where
  | file (name : String) (content : Except String (List I18nStringInfo))
  | dir (name : String) (contents : List DirEntry)

/-- The struct `MergeStrings` (merge_string.go 18-26).  The source takes
`I18nStringInfo`, `LoadI18nStringInfos` and `SaveI18nStringInfos` from package
`common`; the embedding uses the definitions of these names in
verify_strings.go. -/
structure MergeStrings where
  options : Options
  I18nStringInfos : List I18nStringInfo
  Recurse : Bool
  SourceLanguage : String
  Directory : String

/-- The function `NewMergeStrings` (merge_string.go 28-36). -/
def NewMergeStrings (options : Options) : MergeStrings where
  options := options
  I18nStringInfos := []
  Recurse := options.RecurseFlag
  SourceLanguage := options.SourceLanguageFlag
  Directory := options.DirnameFlag

/-- The function `getFilesAndDir` (merge_string.go 118-129), on the listing of
`dir`: the paths of the files, each with what loading it returns, and the
paths of the directories, each with its listing. -/
def getFilesAndDir (X : Externals) (dir : String) :
    List DirEntry →
      List (String × Except String (List I18nStringInfo)) × List (String × List DirEntry)
  | [] => ([], [])
  | DirEntry.file name content :: rest =>
    let r := getFilesAndDir X dir rest
    ((X.Join dir name, content) :: r.1, r.2)
  | DirEntry.dir name contents :: rest =>
    let r := getFilesAndDir X dir rest
    (r.1, (X.Join dir name, contents) :: r.2)

/-- The call `strings.Contains` on the characters of two strings. -/
def containsChars (sub : List Char) : List Char → Bool
  | [] => sub.isEmpty
  | c :: cs => sub.isPrefixOf (c :: cs) || containsChars sub cs

/-- The call `strings.Contains s substr`. -/
def stringsContains (s : String) (substr : String) : Bool :=
  containsChars substr.data s.data

/-- The method `matchFileToSourceLanguage` (merge_string.go 131-140). -/
def matchFileToSourceLanguage {α : Type}
    (files : List (String × α)) (lang : String) : List (String × α) :=
  let languageMatcher := "go." ++ lang ++ ".json"
  files.filter (fun file => stringsContains file.1 languageMatcher)

/-- The call `combinedMap.LoadOrStore(k, v)`: the value is stored when the key
is new. -/
def LoadOrStore (m : InfoMap) (k : String) (v : I18nStringInfo) : InfoMap :=
  if m.has k then m else m ++ [(k, v)]

/-- The goroutines of merge_string.go 71-90, run one after the other in the
order of the file list; the error is that of the first file that fails to
load, which is what `eg.Wait` returns then.  `sem.Acquire` of one permit
under `context.TODO()` does not fail. -/
def loadShards :
    InfoMap → List (String × Except String (List I18nStringInfo)) → Except String InfoMap
  | combinedMap, [] => Except.ok combinedMap
  | _, (f, Except.error e) :: _ => Except.error ("err retrieving file " ++ f ++ ": " ++ e)
  | combinedMap, (_, Except.ok stringInfos) :: rest =>
    loadShards
      (stringInfos.foldl (fun m stringInfo => LoadOrStore m stringInfo.ID stringInfo)
        combinedMap)
      rest

/-- The comparison `<` of Go on two strings, character by character: the
order of the bytes of two UTF-8 strings is the order of their code points. -/
def ltChars : List Char → List Char → Bool
  | _, [] => false
  | [], _ :: _ => true
  | a :: as, b :: bs =>
    if a.toNat < b.toNat then true
    else if b.toNat < a.toNat then false
    else ltChars as bs

/-- The method `Less` (merge_string.go 148-150), on two entries. -/
def Less (a : I18nStringInfo) (b : I18nStringInfo) : Bool :=
  ltChars a.ID.data b.ID.data

/-- Insertion of an entry after the entries that are `Less` than it. -/
def insertByID (x : I18nStringInfo) : List I18nStringInfo → List I18nStringInfo
  | [] => [x]
  | y :: ys => if Less y x then y :: insertByID x ys else x :: y :: ys

/-- The call `sort.Sort(ms)` (merge_string.go 100), as an insertion sort with
`Less`.  The library sort is not stable: entries with equal ids may come out
in another order than here. -/
def sortByID (infos : List I18nStringInfo) : List I18nStringInfo :=
  infos.foldr insertByID []

/-- The part of `combineStringInfosPerDirectory` before the recursion
(merge_string.go 63-104), on the listing of `directory`: the shards are loaded
and deduplicated, the values of the map are appended to the receiver, which is
sorted and saved.  The error of `SaveI18nStringInfos` is dropped by the
source. -/
def combineFiles (X : Externals) (ms : MergeStrings) (fs : FileSystem)
    (directory : String) (contents : List DirEntry) :
    Except String (MergeStrings × FileSystem) :=
  let fileList := matchFileToSourceLanguage (getFilesAndDir X directory contents).1
    ms.SourceLanguage
  match loadShards [] fileList with
  | Except.error e => Except.error e
  | Except.ok combinedMap =>
    let ms2 : MergeStrings :=
      { options := ms.options
        I18nStringInfos := sortByID (ms.I18nStringInfos ++ combinedMap.map Prod.snd)
        Recurse := ms.Recurse
        SourceLanguage := ms.SourceLanguage
        Directory := ms.Directory }
    let filePath := X.Join directory (ms.SourceLanguage ++ ".all.json")
    Except.ok (ms2, (SaveI18nStringInfos ms2.options fs ms2.I18nStringInfos filePath).1)

mutual

/-- The method `combineStringInfosPerDirectory` (merge_string.go 62-116) on
what lies at the path `directory`: the receiver, the file system and the
returned error.  For a path that is not a directory `ioutil.ReadDir` fails,
its error is dropped by `getFilesAndDir` and the listing is empty. -/
def combineStringInfosPerDirectory (X : Externals) (ms : MergeStrings) (fs : FileSystem)
    (directory : String) : DirEntry → MergeStrings × FileSystem × Option String
  | DirEntry.file _ _ =>
    match combineFiles X ms fs directory [] with
    | Except.error e => (ms, fs, some e)
    | Except.ok (ms2, fs2) => (ms2, fs2, none)
  | DirEntry.dir _ contents =>
    match combineFiles X ms fs directory contents with
    | Except.error e => (ms, fs, some e)
    | Except.ok (ms2, fs2) =>
      if ms2.Recurse then combineSubdirectories X ms2 fs2 directory contents
      else (ms2, fs2, none)
termination_by structural entry => entry

/-- The loop over `directories` (merge_string.go 107-112): the directories of
the listing in their order, the files of the listing being passed over. -/
def combineSubdirectories (X : Externals) (ms : MergeStrings) (fs : FileSystem)
    (parent : String) : List DirEntry → MergeStrings × FileSystem × Option String
  | [] => (ms, fs, none)
  | DirEntry.file _ _ :: rest => combineSubdirectories X ms fs parent rest
  | DirEntry.dir name contents :: rest =>
    match combineStringInfosPerDirectory X ms fs (X.Join parent name)
        (DirEntry.dir name contents) with
    | (ms2, fs2, some err) => (ms2, fs2, some err)
    | (ms2, fs2, none) => combineSubdirectories X ms2 fs2 parent rest
termination_by structural entries => entries

end

/-- The method `MergeStrings.Run` (merge_string.go 58-60); `root` is what lies
at the path `ms.Directory`. -/
def MergeStrings.Run (X : Externals) (ms : MergeStrings) (fs : FileSystem)
    (root : DirEntry) : MergeStrings × FileSystem × Option String :=
  combineStringInfosPerDirectory X ms fs ms.Directory root

/-! ## Merge: the order of the stores -/

/-- The entries of the shards that loaded, shard after shard. -/
def shardEntries :
    List (String × Except String (List I18nStringInfo)) → List I18nStringInfo
  | [] => []
  | (_, Except.ok stringInfos) :: rest => stringInfos ++ shardEntries rest
  | (_, Except.error _) :: rest => shardEntries rest

/-- The map `combinedMap` after the calls `LoadOrStore(stringInfo.ID,
stringInfo)` (merge_string.go 86) made in the order of `schedule`, whatever
goroutine makes them. -/
def storeAll (combinedMap : InfoMap) (schedule : List I18nStringInfo) : InfoMap :=
  schedule.foldl (fun m stringInfo => LoadOrStore m stringInfo.ID stringInfo) combinedMap

/-- The path of a diff file, as the three `generate...DiffFile` methods build
it (verify_strings.go 332-338) from the name and directory `CheckFile` gives
for the target. -/
def diffFilenameOf (X : Externals) (vs : verifyStrings) (name pathName suffix : String) :
    String :=
  if vs.OutputDirname != "" then X.Join vs.OutputDirname (name ++ suffix)
  else X.Join pathName (name ++ suffix)

/-- The diff file of a set: none for an empty set, one catalog at its path
otherwise. -/
def artifactOf (path : String) (infos : List I18nStringInfo) :
    List (String × List I18nStringInfo) :=
  if infos.isEmpty then [] else [(path, infos)]

/-! ## The bytes of a saved catalog -/

/-- What `SaveI18nStringInfos` takes from `encoding/json` and from package
`common` to build the bytes it writes. -/
structure Encoder where
  /-- The text `encoding/json` writes for a string: quoted and escaped. -/
  Quote : String → String
  /-- The function `common.UnescapeHTML`. -/
  UnescapeHTML : String → String

/-- The texts of a list, with a separator between them. -/
def joinWith (sep : String) : List String → String
  | [] => ""
  | [x] => x
  | x :: y :: rest => x ++ sep ++ joinWith sep (y :: rest)

/-- The line break `json.Indent` puts before an element at a nesting depth:
a new line, the prefix, and one copy of the indent for every level. -/
def lineBreak (pre indent : String) (depth : Nat) : String :=
  "\n" ++ pre ++ String.join (List.replicate depth indent)

/-- Insertion of a field after the fields whose key is smaller. -/
def insertByKey (x : String × String) : List (String × String) → List (String × String)
  | [] => [x]
  | y :: ys => if ltChars y.1.data x.1.data then y :: insertByKey x ys else x :: y :: ys

mutual

/-- The text `json.MarshalIndent` writes for a value held in an `interface{}`,
at a nesting depth.  The keys of a map are written in ascending order; an
empty array or map is written without a line break. -/
def marshalValue (E : Encoder) (pre indent : String) (depth : Nat) : Json → String
  | Json.null => "null"
  | Json.bool b => if b then "true" else "false"
  | Json.number literal => literal
  | Json.str s => E.Quote s
  | Json.arr items =>
    match marshalItems E pre indent (depth + 1) items with
    | [] => "[]"
    | texts =>
      "[" ++ lineBreak pre indent (depth + 1) ++
        joinWith ("," ++ lineBreak pre indent (depth + 1)) texts ++
        lineBreak pre indent depth ++ "]"
  | Json.obj pairs =>
    match (marshalPairs E pre indent (depth + 1) pairs).foldr insertByKey [] with
    | [] => "\x7b\x7d"
    | fields =>
      "\x7b" ++ lineBreak pre indent (depth + 1) ++
        joinWith ("," ++ lineBreak pre indent (depth + 1))
          (fields.map (fun field => E.Quote field.1 ++ ": " ++ field.2)) ++
        lineBreak pre indent depth ++ "\x7d"
termination_by structural value => value

/-- The texts of the elements of an array. -/
def marshalItems (E : Encoder) (pre indent : String) (depth : Nat) :
    List Json → List String
  | [] => []
  | item :: rest =>
    marshalValue E pre indent depth item :: marshalItems E pre indent depth rest
termination_by structural items => items

/-- The keys of a map with the texts of their values. -/
def marshalPairs (E : Encoder) (pre indent : String) (depth : Nat) :
    List (String × Json) → List (String × String)
  | [] => []
  | (key, value) :: rest =>
    (key, marshalValue E pre indent depth value) :: marshalPairs E pre indent depth rest
termination_by structural pairs => pairs

end

/-- The text `json.MarshalIndent` writes for an `I18nStringInfo` at a nesting
depth: the fields `id`, `translation` and `modified` in the order of the
struct, each on a line of its own. -/
def marshalInfo (E : Encoder) (pre indent : String) (depth : Nat)
    (info : I18nStringInfo) : String :=
  "\x7b" ++ lineBreak pre indent (depth + 1) ++
    "\"id\": " ++ E.Quote info.ID ++ "," ++ lineBreak pre indent (depth + 1) ++
    "\"translation\": " ++ marshalValue E pre indent (depth + 1) info.Translation ++ "," ++
    lineBreak pre indent (depth + 1) ++
    "\"modified\": " ++ (if info.Modified then "true" else "false") ++
    lineBreak pre indent depth ++ "\x7d"

/-- The call `json.MarshalIndent(i18nStringInfos, pre, indent)` on a catalog:
an array with one element for every entry.  An empty catalog is taken as an
empty slice, not as a nil slice. -/
def MarshalIndent (E : Encoder) (infos : List I18nStringInfo) (pre indent : String) :
    String :=
  match infos with
  | [] => "[]"
  | info :: rest =>
    "[" ++ lineBreak pre indent 1 ++
      joinWith ("," ++ lineBreak pre indent 1)
        ((info :: rest).map (marshalInfo E pre indent 1)) ++
      lineBreak pre indent 0 ++ "]"

/-- The variable `jsonData` of `SaveI18nStringInfos` (verify_strings.go 156 and
161): the bytes that are written to the file. -/
def jsonData (E : Encoder) (infos : List I18nStringInfo) : String :=
  E.UnescapeHTML (MarshalIndent E infos "" "   ")

/-- Modelled from the spec: the scan behind `common.UnescapeHTML`, which is not
among the sources: the escapes of `<`, `>` and `&` (a backslash, `u` and four
hexadecimal digits) are replaced by the characters.  `skip` counts the
characters of an escape still to be dropped. -/
def unescapeChars : Nat → List Char → List Char
  | _, [] => []
  | skip + 1, _ :: cs => unescapeChars skip cs
  | 0, c :: cs =>
    if (c :: cs).take 6 = [Char.ofNat 92, 'u', '0', '0', '3', 'c'] then
      '<' :: unescapeChars 5 cs
    else if (c :: cs).take 6 = [Char.ofNat 92, 'u', '0', '0', '3', 'e'] then
      '>' :: unescapeChars 5 cs
    else if (c :: cs).take 6 = [Char.ofNat 92, 'u', '0', '0', '2', '6'] then
      '&' :: unescapeChars 5 cs
    else c :: unescapeChars 0 cs

/-- Modelled from the spec: an encoder for the examples.  `Quote` puts a string
between double quotes, which is the text of a string without a character to
escape; `UnescapeHTML` is the replacement the specification describes for
`common.UnescapeHTML`, which is not among the sources. -/
def specEncoder : Encoder where
  Quote := fun s => "\"" ++ s ++ "\""
  UnescapeHTML := fun s => String.mk (unescapeChars 0 s.data)

/-! ## Example data -/

/-- An entry with a single string as translation, not modified. -/
def entry (id : String) (translation : String) : I18nStringInfo where
  ID := id
  Translation := Json.str translation
  Modified := false

/-- A file system holding the given catalogs, on which every write succeeds
and nothing has been written. -/
def filesOf (catalogs : List (String × List I18nStringInfo)) : FileSystem where
  load := fun p =>
    match catalogs.find? (fun c => c.1 == p) with
    | some c => Except.ok c.2
    | none => Except.error ("open " ++ p ++ ": no such file or directory")
  writeErr := fun _ => none
  written := []

/-- The options of a plain run: no dry run, not verbose, with the given
recursion flag, source language `en`, directory `root`. -/
def plainOptions (recurse : Bool) : Options where
  DryRunFlag := false
  VerboseFlag := false
  RecurseFlag := recurse
  SourceLanguageFlag := "en"
  DirnameFlag := "root"

/-- A verification of the targets against the source `en.json`. -/
def verifierOf (targets : List String) : verifyStrings where
  options := plainOptions false
  InputFilename := "en.json"
  OutputDirname := ""
  SourceLanguage := "en"
  LanguageFilenames := targets
  Languages := []

/-- The ids of a list of entries. -/
abbrev idsOf (infos : List I18nStringInfo) : List String :=
  infos.map (fun info => info.ID)

/-! ## Lemmas -/

theorem filter_length_pos_iff {α : Type} (p : α → Bool) (l : List α) :
    (l.filter p).length > 0 ↔ ∃ a ∈ l, p a = true := by
  rw [gt_iff_lt, List.length_pos]
  constructor
  · intro h
    obtain ⟨a, ha⟩ := List.exists_mem_of_ne_nil _ h
    rw [List.mem_filter] at ha
    exact ⟨a, ha.1, ha.2⟩
  · rintro ⟨a, ha, hp⟩ hnil
    have : a ∈ l.filter p := List.mem_filter.mpr ⟨ha, hp⟩
    rw [hnil] at this
    exact List.not_mem_nil _ this

theorem invalidAmong_single (X : Externals) (id t : String)
    (ht : X.IsTemplatedString t = true) :
    invalidAmong X id [t] =
      decide (¬ ((X.GetTemplatedStringArgs id).toFinset \ {"count"} ⊆
                  (X.GetTemplatedStringArgs t).toFinset) ∨
              ¬ ((X.GetTemplatedStringArgs t).toFinset ⊆
                  (X.GetTemplatedStringArgs id).toFinset)) := by
  rw [Bool.eq_iff_iff]
  simp only [invalidAmong, ht, Bool.not_true, Bool.false_eq_true, if_false,
    filter_length_pos_iff, decide_eq_true_eq]
  by_cases h1 : ∃ a ∈ X.GetTemplatedStringArgs id,
      (!(X.GetTemplatedStringArgs t).contains a && a != "count") = true
  · rw [if_pos h1]
    simp only [true_iff]
    left
    obtain ⟨a, ha, hp⟩ := h1
    intro hsub
    simp only [Bool.and_eq_true, Bool.not_eq_true', bne_iff_ne, ne_eq] at hp
    have : a ∈ (X.GetTemplatedStringArgs t).toFinset := hsub (by
      simp [ha, hp.2])
    have h2 : (X.GetTemplatedStringArgs t).contains a = true := by
      simpa using this
    rw [h2] at hp
    exact Bool.noConfusion hp.1
  · rw [if_neg h1]
    have hA : (X.GetTemplatedStringArgs id).toFinset \ {"count"} ⊆
        (X.GetTemplatedStringArgs t).toFinset := by
      intro a ha
      simp only [Finset.mem_sdiff, List.mem_toFinset, Finset.mem_singleton] at ha
      by_contra hna
      apply h1
      refine ⟨a, ha.1, ?_⟩
      simp only [List.mem_toFinset] at hna
      simp [hna, ha.2]
    by_cases h2 : ∃ a ∈ X.GetTemplatedStringArgs t,
        (!(X.GetTemplatedStringArgs id).contains a) = true
    · rw [if_pos h2]
      simp only [true_iff]
      right
      obtain ⟨a, ha, hp⟩ := h2
      intro hsub
      have : a ∈ (X.GetTemplatedStringArgs id).toFinset := hsub (by simpa using ha)
      have h3 : (X.GetTemplatedStringArgs id).contains a = true := by simpa using this
      rw [h3] at hp
      exact Bool.noConfusion hp
    · rw [if_neg h2]
      simp only [Bool.false_eq_true, false_iff, not_or, not_not]
      refine ⟨hA, ?_⟩
      intro a ha
      by_contra hna
      apply h2
      refine ⟨a, by simpa using ha, ?_⟩
      simp only [List.mem_toFinset] at hna
      simp [hna]

theorem has_iff (m : InfoMap) (k : String) :
    m.has k = true ↔ k ∈ keysForI18nStringInfoMap m := by
  simp only [InfoMap.has, keysForI18nStringInfoMap, List.any_eq_true, beq_iff_eq, List.mem_map]

theorem has_eq_false_iff (m : InfoMap) (k : String) :
    m.has k = false ↔ k ∉ keysForI18nStringInfoMap m := by
  rw [← has_iff, Bool.not_eq_true]

theorem delete_eq_self (m : InfoMap) (k : String) (h : m.has k = false) :
    m.delete k = m := by
  rw [has_eq_false_iff] at h
  unfold InfoMap.delete
  rw [List.filter_eq_self]
  intro kv hkv
  simp only [Bool.not_eq_true', beq_eq_false_iff_ne, ne_eq]
  rintro rfl
  exact h (List.mem_map.mpr ⟨kv, hkv, rfl⟩)

/-- What one turn of the loop does to the three variables. -/
theorem verifyStep_spec (X : Externals) (d d2 : Diff) (e : I18nStringInfo)
    (h : verifyStep X d e = some d2) :
    d2.inputMap = d.inputMap.delete e.ID ∧
    (d.inputMap.has e.ID = true →
      d2.targetExtraStringInfos = d.targetExtraStringInfos ∧
      (d2.targetInvalidStringInfos = d.targetInvalidStringInfos ∨
        (d2.targetInvalidStringInfos = d.targetInvalidStringInfos ++ [e] ∧
          X.IsTemplatedString e.ID = true ∧
          isTemplatedStringTranslationInvalid X e = some true))) ∧
    (d.inputMap.has e.ID = false →
      d2.targetExtraStringInfos = d.targetExtraStringInfos ++ [e] ∧
      d2.targetInvalidStringInfos = d.targetInvalidStringInfos) := by
  unfold verifyStep at h
  by_cases hhas : d.inputMap.has e.ID = true
  · rw [if_pos hhas] at h
    by_cases ht : X.IsTemplatedString e.ID = true
    · rw [if_pos ht] at h
      cases hinv : isTemplatedStringTranslationInvalid X e with
      | none => rw [hinv] at h; exact Option.noConfusion h
      | some b =>
        rw [hinv] at h
        cases b with
        | true =>
          simp only [Option.some.injEq] at h
          subst h
          exact ⟨rfl, fun _ => ⟨rfl, Or.inr ⟨rfl, ht, rfl⟩⟩,
            fun hf => by rw [hf] at hhas; exact Bool.noConfusion hhas⟩
        | false =>
          simp only [Option.some.injEq] at h
          subst h
          exact ⟨rfl, fun _ => ⟨rfl, Or.inl rfl⟩,
            fun hf => by rw [hf] at hhas; exact Bool.noConfusion hhas⟩
    · rw [if_neg ht] at h
      simp only [Option.some.injEq] at h
      subst h
      exact ⟨rfl, fun _ => ⟨rfl, Or.inl rfl⟩,
        fun hf => by rw [hf] at hhas; exact Bool.noConfusion hhas⟩
  · rw [if_neg hhas] at h
    simp only [Option.some.injEq] at h
    subst h
    have hf : d.inputMap.has e.ID = false := by simpa using hhas
    exact ⟨(delete_eq_self _ _ hf).symm, fun ht => absurd ht hhas, fun _ => ⟨rfl, rfl⟩⟩

/-- A turn of the loop panics only on a translation of an unexpected shape. -/
theorem verifyStep_isSome (X : Externals) (d : Diff) (e : I18nStringInfo)
    (h : e.Translations ≠ none) : (verifyStep X d e).isSome = true := by
  unfold verifyStep
  by_cases hhas : d.inputMap.has e.ID = true
  · rw [if_pos hhas]
    by_cases ht : X.IsTemplatedString e.ID = true
    · rw [if_pos ht]
      unfold isTemplatedStringTranslationInvalid
      simp only [ht, Bool.not_true, Bool.false_eq_true, if_false]
      cases htr : e.Translations with
      | none => exact absurd htr h
      | some ts =>
        simp only
        cases invalidAmong X e.ID ts <;> rfl
    · rw [if_neg ht]; rfl
  · rw [if_neg hhas]; rfl

theorem verifyLoop_isSome (X : Externals) (target : List I18nStringInfo) :
    ∀ d : Diff, (∀ e ∈ target, e.Translations ≠ none) →
      (verifyLoop X d target).isSome = true := by
  induction target with
  | nil => intro d _; rfl
  | cons e rest ih =>
    intro d h
    unfold verifyLoop
    have h1 := verifyStep_isSome X d e (h e (List.mem_cons_self _ _))
    cases hs : verifyStep X d e with
    | none => rw [hs] at h1; exact Bool.noConfusion h1
    | some d1 =>
      simp only
      exact ih d1 (fun x hx => h x (List.mem_cons_of_mem _ hx))

/-- The map after the loop: the keys that are ids of the target are gone. -/
theorem verifyLoop_inputMap (X : Externals) (target : List I18nStringInfo) :
    ∀ d d2 : Diff, verifyLoop X d target = some d2 →
      d2.inputMap = d.inputMap.filter (fun kv => decide (kv.1 ∉ idsOf target)) := by
  induction target with
  | nil =>
    intro d d2 h
    simp only [verifyLoop, Option.some.injEq] at h
    subst h
    simp
  | cons e rest ih =>
    intro d d2 h
    unfold verifyLoop at h
    cases hs : verifyStep X d e with
    | none => rw [hs] at h; exact Option.noConfusion h
    | some d1 =>
      rw [hs] at h
      simp only at h
      rw [ih d1 d2 h, (verifyStep_spec X d d1 e hs).1]
      unfold InfoMap.delete
      rw [List.filter_filter]
      congr 1
      funext kv
      simp only [idsOf, List.map_cons, List.mem_cons, not_or, Bool.decide_and]
      by_cases hk : kv.1 = e.ID <;> simp [hk]

theorem has_append (m : InfoMap) (k : String) (v : I18nStringInfo) (k2 : String) :
    InfoMap.has (m ++ [(k, v)]) k2 = (m.has k2 || k == k2) := by
  simp [InfoMap.has, List.any_append]

theorem set_of_not_has (m : InfoMap) (k : String) (v : I18nStringInfo)
    (h : m.has k = false) : m.set k v = m ++ [(k, v)] := by
  simp [InfoMap.set, h]

/-- Without a repeated id the map is built, the entries in their order. -/
theorem createMapFrom_ok (infos : List I18nStringInfo) :
    ∀ m : InfoMap, (idsOf infos).Nodup → (∀ i ∈ infos, m.has i.ID = false) →
      createMapFrom m infos = Except.ok (m ++ infos.map (fun i => (i.ID, i))) := by
  induction infos with
  | nil => intro m _ _; simp [createMapFrom]
  | cons i rest ih =>
    intro m hnd hfresh
    have hi : m.has i.ID = false := hfresh i (List.mem_cons_self _ _)
    simp only [idsOf, List.map_cons, List.nodup_cons] at hnd
    unfold createMapFrom
    simp only [hi, Bool.not_false, if_true]
    rw [set_of_not_has m i.ID i hi, ih _ hnd.2]
    · simp
    · intro j hj
      rw [has_append, hfresh j (List.mem_cons_of_mem _ hj)]
      simp only [Bool.false_or, beq_eq_false_iff_ne, ne_eq]
      intro heq
      exact hnd.1 (List.mem_map.mpr ⟨j, hj, heq.symm⟩)

/-- An error of the loop comes from the first entry whose id is already a
key. -/
theorem createMapFrom_error (infos : List I18nStringInfo) :
    ∀ (m : InfoMap) (e : String), createMapFrom m infos = Except.error e →
      ∃ pre x post, infos = pre ++ x :: post ∧ (idsOf pre).Nodup ∧
        (∀ i ∈ pre, m.has i.ID = false) ∧
        (m.has x.ID = true ∨ x.ID ∈ idsOf pre) ∧
        e = "Duplicated key found: " ++ x.ID := by
  induction infos with
  | nil => intro m e h; simp [createMapFrom] at h
  | cons i rest ih =>
    intro m e h
    unfold createMapFrom at h
    by_cases hi : m.has i.ID = true
    · simp only [hi, Bool.not_true, Bool.false_eq_true, if_false, Except.error.injEq] at h
      exact ⟨[], i, rest, rfl, List.nodup_nil, fun _ hx => absurd hx (List.not_mem_nil _),
        Or.inl hi, h.symm⟩
    · have hif : m.has i.ID = false := by simpa using hi
      simp only [hif, Bool.not_false, if_true] at h
      rw [set_of_not_has m i.ID i hif] at h
      obtain ⟨pre, x, post, hsplit, hnd, hfresh, hdup, he⟩ := ih _ e h
      refine ⟨i :: pre, x, post, by rw [hsplit]; rfl, ?_, ?_, ?_, he⟩
      · simp only [idsOf, List.map_cons, List.nodup_cons]
        refine ⟨?_, hnd⟩
        intro hmem
        obtain ⟨j, hj, hji⟩ := List.mem_map.mp hmem
        have := hfresh j hj
        rw [has_append] at this
        simp [hji] at this
      · intro j hj
        rcases List.mem_cons.mp hj with rfl | hj
        · exact hif
        · have := hfresh j hj
          rw [has_append] at this
          simp only [Bool.or_eq_false_iff] at this
          exact this.1
      · rcases hdup with hdup | hdup
        · rw [has_append] at hdup
          simp only [Bool.or_eq_true, beq_iff_eq] at hdup
          rcases hdup with hdup | hdup
          · exact Or.inl hdup
          · right
            simp only [idsOf, List.map_cons, List.mem_cons]
            exact Or.inl hdup.symm
        · right
          simp only [idsOf, List.map_cons, List.mem_cons]
          exact Or.inr hdup

theorem CreateI18nStringInfoMap_of_nodup (infos : List I18nStringInfo)
    (h : (idsOf infos).Nodup) :
    CreateI18nStringInfoMap infos = Except.ok (infos.map (fun i => (i.ID, i))) := by
  unfold CreateI18nStringInfoMap
  rw [createMapFrom_ok infos [] h (fun _ _ => rfl)]
  rfl

theorem CreateI18nStringInfoMap_of_dup (infos : List I18nStringInfo)
    (h : ¬ (idsOf infos).Nodup) :
    ∃ e, CreateI18nStringInfoMap infos = Except.error e := by
  cases hc : CreateI18nStringInfoMap infos with
  | error e => exact ⟨e, rfl⟩
  | ok m =>
    exfalso
    apply h
    -- the loop returns a map only when it never meets a key twice
    have key : ∀ (l : List I18nStringInfo) (m0 m1 : InfoMap),
        createMapFrom m0 l = Except.ok m1 →
          (idsOf l).Nodup ∧ ∀ i ∈ l, m0.has i.ID = false := by
      intro l
      induction l with
      | nil => intro m0 m1 _; exact ⟨List.nodup_nil, fun _ hx => absurd hx (List.not_mem_nil _)⟩
      | cons i rest ih =>
        intro m0 m1 hok
        unfold createMapFrom at hok
        by_cases hi : m0.has i.ID = true
        · simp [hi] at hok
        · have hif : m0.has i.ID = false := by simpa using hi
          simp only [hif, Bool.not_false, if_true] at hok
          rw [set_of_not_has m0 i.ID i hif] at hok
          obtain ⟨hnd, hfresh⟩ := ih _ m1 hok
          refine ⟨?_, ?_⟩
          · simp only [idsOf, List.map_cons, List.nodup_cons]
            refine ⟨?_, hnd⟩
            intro hmem
            obtain ⟨j, hj, hji⟩ := List.mem_map.mp hmem
            have := hfresh j hj
            rw [has_append] at this
            simp [hji] at this
          · intro j hj
            rcases List.mem_cons.mp hj with rfl | hj
            · exact hif
            · have := hfresh j hj
              rw [has_append] at this
              simp only [Bool.or_eq_false_iff] at this
              exact this.1
    exact (key infos [] m hc).1

theorem find_of_mem (infos : List I18nStringInfo) (h : (idsOf infos).Nodup) :
    ∀ i ∈ infos, InfoMap.find (infos.map (fun i => (i.ID, i))) i.ID = some i := by
  induction infos with
  | nil => intro i hi; exact absurd hi (List.not_mem_nil _)
  | cons a rest ih =>
    intro i hi
    simp only [idsOf, List.map_cons, List.nodup_cons] at h
    rcases List.mem_cons.mp hi with rfl | hi
    · simp [InfoMap.find]
    · have hne : ¬ a.ID = i.ID := by
        intro heq
        exact h.1 (List.mem_map.mpr ⟨i, hi, heq.symm⟩)
      have := ih h.2 i hi
      simp only [InfoMap.find] at this ⊢
      rw [List.map_cons, List.find?_cons_of_neg]
      · exact this
      · simpa using hne

theorem has_delete (m : InfoMap) (k k2 : String) :
    (m.delete k).has k2 = (m.has k2 && !(k2 == k)) := by
  rw [Bool.eq_iff_iff]
  simp only [InfoMap.has, InfoMap.delete, List.any_eq_true, List.mem_filter, beq_iff_eq,
    Bool.and_eq_true, Bool.not_eq_true', beq_eq_false_iff_ne, ne_eq]
  constructor
  · rintro ⟨kv, ⟨hm, hne⟩, rfl⟩
    exact ⟨⟨kv, hm, rfl⟩, hne⟩
  · rintro ⟨⟨kv, hm, rfl⟩, hne⟩
    exact ⟨kv, ⟨hm, hne⟩, rfl⟩

/-- The extra and invalid sets after the loop, entry by entry. -/
theorem verifyLoop_sets (X : Externals) (target : List I18nStringInfo) :
    ∀ d d2 : Diff, verifyLoop X d target = some d2 →
      (∀ e ∈ target, d.inputMap.has e.ID = false → e ∈ d2.targetExtraStringInfos) ∧
      (∀ e, e ∈ d.targetExtraStringInfos → e ∈ d2.targetExtraStringInfos) ∧
      (∀ e, e ∈ d2.targetInvalidStringInfos →
        e ∈ d.targetInvalidStringInfos ∨
          (e ∈ target ∧ d.inputMap.has e.ID = true ∧ X.IsTemplatedString e.ID = true ∧
            isTemplatedStringTranslationInvalid X e = some true)) := by
  induction target with
  | nil =>
    intro d d2 h
    simp only [verifyLoop, Option.some.injEq] at h
    subst h
    exact ⟨fun e he => absurd he (List.not_mem_nil _), fun e he => he, fun e he => Or.inl he⟩
  | cons a rest ih =>
    intro d d2 h
    unfold verifyLoop at h
    cases hs : verifyStep X d a with
    | none => rw [hs] at h; exact Option.noConfusion h
    | some d1 =>
      rw [hs] at h
      simp only at h
      obtain ⟨hmap, hin, hout⟩ := verifyStep_spec X d d1 a hs
      obtain ⟨i2, i3, i4⟩ := ih d1 d2 h
      have hmono : ∀ k, d.inputMap.has k = false → d1.inputMap.has k = false := by
        intro k hk
        rw [hmap, has_delete, hk]
        rfl
      have hanti : ∀ k, d1.inputMap.has k = true → d.inputMap.has k = true := by
        intro k hk
        rw [hmap, has_delete] at hk
        simp only [Bool.and_eq_true] at hk
        exact hk.1
      have hext : ∀ e, e ∈ d.targetExtraStringInfos → e ∈ d1.targetExtraStringInfos := by
        intro e he
        cases hh : d.inputMap.has a.ID with
        | true => rw [(hin hh).1]; exact he
        | false => rw [(hout hh).1]; exact List.mem_append_left _ he
      refine ⟨?_, fun e he => i3 e (hext e he), ?_⟩
      · intro e he hfresh
        rcases List.mem_cons.mp he with rfl | he
        · apply i3
          rw [(hout hfresh).1]
          exact List.mem_append_right _ (List.mem_singleton_self _)
        · exact i2 e he (hmono _ hfresh)
      · intro e he
        rcases i4 e he with h1 | ⟨h1, h2, h3, h4⟩
        · cases hh : d.inputMap.has a.ID with
          | true =>
            rcases (hin hh).2 with hsame | ⟨happ, ht, hinv⟩
            · rw [hsame] at h1; exact Or.inl h1
            · rw [happ] at h1
              rcases List.mem_append.mp h1 with h1 | h1
              · exact Or.inl h1
              · rw [List.mem_singleton] at h1
                subst h1
                exact Or.inr ⟨List.mem_cons_self _ _, hh, ht, hinv⟩
          | false => rw [(hout hh).2] at h1; exact Or.inl h1
        · exact Or.inr ⟨List.mem_cons_of_mem _ h1, hanti _ h2, h3, h4⟩

/-- The extra set after the loop over a target without repeated ids: the
entries whose id is not a key of the map, in their order. -/
theorem verifyLoop_extra_of_nodup (X : Externals) (target : List I18nStringInfo) :
    ∀ d d2 : Diff, (idsOf target).Nodup → verifyLoop X d target = some d2 →
      d2.targetExtraStringInfos =
        d.targetExtraStringInfos ++ target.filter (fun e => !(d.inputMap.has e.ID)) := by
  induction target with
  | nil =>
    intro d d2 _ h
    simp only [verifyLoop, Option.some.injEq] at h
    subst h
    simp
  | cons a rest ih =>
    intro d d2 hnd h
    simp only [idsOf, List.map_cons, List.nodup_cons] at hnd
    unfold verifyLoop at h
    cases hs : verifyStep X d a with
    | none => rw [hs] at h; exact Option.noConfusion h
    | some d1 =>
      rw [hs] at h
      simp only at h
      obtain ⟨hmap, hin, hout⟩ := verifyStep_spec X d d1 a hs
      have hsame : rest.filter (fun e => !(d1.inputMap.has e.ID)) =
          rest.filter (fun e => !(d.inputMap.has e.ID)) := by
        apply List.filter_congr
        intro e he
        have hne : (e.ID == a.ID) = false := by
          simp only [beq_eq_false_iff_ne, ne_eq]
          intro heq
          exact hnd.1 (List.mem_map.mpr ⟨e, he, heq⟩)
        rw [hmap, has_delete, hne]
        simp
      rw [ih d1 d2 hnd.2 h, hsame]
      cases hh : d.inputMap.has a.ID with
      | true => rw [(hin hh).1]; simp [List.filter_cons, hh]
      | false => rw [(hout hh).1]; simp [List.filter_cons, hh]

/-- With source and target loaded, `verify` is the loop followed by the
report. -/
theorem verify_of_loads (X : Externals) (vs : verifyStrings) (fs : FileSystem)
    (inputFilename targetFilename : String) (source target : List I18nStringInfo)
    (inputMap : InfoMap)
    (hsrc : fs.load inputFilename = Except.ok source) (hne : source ≠ [])
    (hmap : CreateI18nStringInfoMap source = Except.ok inputMap)
    (htgt : fs.load targetFilename = Except.ok target) :
    verify X vs fs inputFilename targetFilename =
      (verifyLoop X { inputMap := inputMap
                      targetExtraStringInfos := []
                      targetInvalidStringInfos := [] } target).map
        (fun d => verifyReport X vs fs d targetFilename) := by
  have hlen : (source.length == 0) = false := by
    cases source with
    | nil => exact absurd rfl hne
    | cons a l => rfl
  unfold verify LoadI18nStringInfos
  rw [hsrc]
  simp only [hlen, Bool.false_eq_true, if_false, hmap, htgt]
  cases verifyLoop X { inputMap := inputMap
                       targetExtraStringInfos := []
                       targetInvalidStringInfos := [] } target <;> rfl

/-- A diff file is generated without error when `CheckFile` accepts the
target and no write fails. -/
theorem generateDiffFile_ok (X : Externals) (vs : verifyStrings) (f : FileSystem)
    (suffix : String) (infos : List I18nStringInfo) (fileName : String)
    (hc : ∃ r, X.CheckFile f fileName = Except.ok r)
    (hw : ∀ p, f.writeErr p = none) :
    ∃ f2 name, generateDiffFile X vs f suffix infos fileName = (f2, name, none) ∧
      ∀ p, f2.writeErr p = none := by
  obtain ⟨⟨name, pathName⟩, hr⟩ := hc
  unfold generateDiffFile SaveI18nStringInfos FileSystem.writeFile
  rw [hr]
  simp only [hw]
  by_cases hcond : (!vs.options.DryRunFlag && infos.length != 0) = true
  · rw [if_pos hcond]
    exact ⟨_, _, rfl, hw⟩
  · rw [if_neg hcond]
    exact ⟨_, _, rfl, hw⟩

theorem diffBlock_ok (nonEmpty : Bool)
    (generate : FileSystem → FileSystem × String × Option String)
    (message : String) (state : FileSystem × Option String)
    (hgen : ∃ f2 name, generate state.1 = (f2, name, none) ∧ ∀ p, f2.writeErr p = none)
    (hw : ∀ p, state.1.writeErr p = none) :
    ∃ f2, diffBlock nonEmpty generate message state =
        Except.ok (f2, if nonEmpty = true then some message else state.2) ∧
      ∀ p, f2.writeErr p = none := by
  obtain ⟨f2, name, hg, hw2⟩ := hgen
  unfold diffBlock
  cases nonEmpty with
  | true => simp only [if_true, hg]; exact ⟨f2, rfl, hw2⟩
  | false => simp only [Bool.false_eq_true, if_false]; exact ⟨state.1, rfl, hw⟩

/-- The error the report returns when no diff file fails to be written. -/
theorem verifyReport_ok (X : Externals) (vs : verifyStrings) (fs : FileSystem) (d : Diff)
    (targetFilename : String)
    (hcheck : ∀ f, ∃ r, X.CheckFile f targetFilename = Except.ok r)
    (hwrite : ∀ p, fs.writeErr p = none) :
    ∃ fs2, verifyReport X vs fs d targetFilename =
      (fs2,
        if d.inputMap.length > 0 then some (missingError d.inputMap)
        else if d.targetInvalidStringInfos.length > 0 then
          some (invalidError d.targetInvalidStringInfos)
        else if d.targetExtraStringInfos.length > 0 then
          some (extraError d.targetExtraStringInfos)
        else none) := by
  obtain ⟨f1, h1, w1⟩ := diffBlock_ok (decide (d.targetExtraStringInfos.length > 0))
    (fun f => generateExtraKeysDiffFile X vs f d.targetExtraStringInfos targetFilename)
    (extraError d.targetExtraStringInfos) (fs, none)
    (generateDiffFile_ok X vs fs _ _ _ (hcheck fs) hwrite) hwrite
  obtain ⟨f2, h2, w2⟩ := diffBlock_ok (decide (d.targetInvalidStringInfos.length > 0))
    (fun f => generateInvalidTranslationDiffFile X vs f d.targetInvalidStringInfos
      targetFilename)
    (invalidError d.targetInvalidStringInfos)
    (f1, if decide (d.targetExtraStringInfos.length > 0) = true then
      some (extraError d.targetExtraStringInfos) else none)
    (generateDiffFile_ok X vs f1 _ _ _ (hcheck f1) w1) w1
  obtain ⟨f3, h3, _⟩ := diffBlock_ok (decide (d.inputMap.length > 0))
    (fun f => generateMissingKeysDiffFile X vs f (valuesForI18nStringInfoMap d.inputMap)
      targetFilename)
    (missingError d.inputMap)
    (f2, if decide (d.targetInvalidStringInfos.length > 0) = true then
        some (invalidError d.targetInvalidStringInfos)
      else if decide (d.targetExtraStringInfos.length > 0) = true then
        some (extraError d.targetExtraStringInfos) else none)
    (generateDiffFile_ok X vs f2 _ _ _ (hcheck f2) w2) w2
  refine ⟨f3, ?_⟩
  unfold verifyReport
  simp only [h1, h2, h3, bind, Except.bind]
  simp only [decide_eq_true_eq]

/-- When every call of `verify` leaves the files alone and returns the same
error, so does the loop of `Run` over a non-empty list of targets. -/
theorem runTargets_of_fatal (X : Externals) (vs : verifyStrings) (fs : FileSystem)
    (e : String)
    (hv : ∀ t, verify X vs fs vs.InputFilename t = some (fs, some e))
    (targets : List String) :
    ∀ err, runTargets X vs fs err targets =
      some (fs, if targets = [] then err else some e) := by
  induction targets with
  | nil => intro err; rfl
  | cons t rest ih =>
    intro err
    unfold runTargets
    rw [hv t]
    simp only [ih]
    by_cases hr : rest = [] <;> simp [hr]

theorem ltChars_irrefl : ∀ a : List Char, ltChars a a = false
  | [] => rfl
  | c :: cs => by
    simp only [ltChars, lt_self_iff_false, if_false]
    exact ltChars_irrefl cs

theorem ltChars_trans : ∀ a b c : List Char,
    ltChars a b = true → ltChars b c = true → ltChars a c = true
  | _, [], _ => by intro h; simp [ltChars] at h
  | _, _ :: _, [] => by intro _ h; simp [ltChars] at h
  | [], _ :: _, _ :: _ => by intro _ _; rfl
  | x :: xs, y :: ys, z :: zs => by
    intro h1 h2
    simp only [ltChars] at h1 h2 ⊢
    by_cases hxy : x.toNat < y.toNat
    · by_cases hyz : y.toNat < z.toNat
      · have : x.toNat < z.toNat := lt_trans hxy hyz
        simp [this]
      · simp only [hyz, if_false] at h2
        by_cases hzy : z.toNat < y.toNat
        · simp [hzy] at h2
        · have : y.toNat = z.toNat := by omega
          simp [← this, hxy]
    · simp only [hxy, if_false] at h1
      by_cases hyx : y.toNat < x.toNat
      · simp [hyx] at h1
      · simp only [hyx, if_false] at h1
        have hxy2 : x.toNat = y.toNat := by omega
        by_cases hyz : y.toNat < z.toNat
        · simp [hxy2, hyz]
        · simp only [hyz, if_false] at h2
          by_cases hzy : z.toNat < y.toNat
          · simp [hzy] at h2
          · simp only [hzy, if_false] at h2
            have hyz2 : y.toNat = z.toNat := by omega
            have h3 := ltChars_trans xs ys zs h1 h2
            simp [hxy2, hyz2, h3]

theorem ltChars_total : ∀ a b : List Char,
    ltChars a b = false → ltChars b a = false → a = b
  | [], [] => fun _ _ => rfl
  | [], _ :: _ => by intro h; simp [ltChars] at h
  | _ :: _, [] => by intro _ h; simp [ltChars] at h
  | x :: xs, y :: ys => by
    intro h1 h2
    simp only [ltChars] at h1 h2
    by_cases hxy : x.toNat < y.toNat
    · simp [hxy] at h1
    · by_cases hyx : y.toNat < x.toNat
      · simp [hyx] at h2
      · simp only [hxy, hyx, if_false] at h1 h2
        have hnat : x.toNat = y.toNat := by omega
        have hc : x = y := Char.ext (UInt32.ext hnat)
        rw [hc, ltChars_total xs ys h1 h2]

theorem Less_irrefl (a : I18nStringInfo) : Less a a = false :=
  ltChars_irrefl _

theorem Less_trans (a b c : I18nStringInfo) (h1 : Less a b = true) (h2 : Less b c = true) :
    Less a c = true :=
  ltChars_trans _ _ _ h1 h2

theorem Less_asymm (a b : I18nStringInfo) (h : Less a b = true) : Less b a = false := by
  cases hba : Less b a with
  | false => rfl
  | true =>
    have := Less_trans a b a h hba
    rw [Less_irrefl] at this
    exact Bool.noConfusion this

theorem ID_eq_of_not_Less (a b : I18nStringInfo) (h1 : Less a b = false)
    (h2 : Less b a = false) : a.ID = b.ID :=
  String.ext (ltChars_total _ _ h1 h2)

/-- The order `Less` leaves between two entries: the second is not less than
the first. -/
theorem notLess_trans (a b c : I18nStringInfo) (h1 : Less b a = false)
    (h2 : Less c b = false) : Less c a = false := by
  cases hca : Less c a with
  | false => rfl
  | true =>
    exfalso
    cases hab : Less a b with
    | true =>
      have := Less_trans c a b hca hab
      rw [h2] at this
      exact Bool.noConfusion this
    | false =>
      have hid : a.ID = b.ID := ID_eq_of_not_Less a b hab h1
      have : Less c b = true := by
        unfold Less at hca ⊢
        rw [← hid]
        exact hca
      rw [h2] at this
      exact Bool.noConfusion this

theorem insertByID_perm (x : I18nStringInfo) :
    ∀ l : List I18nStringInfo, (insertByID x l).Perm (x :: l)
  | [] => List.Perm.refl _
  | y :: ys => by
    unfold insertByID
    by_cases h : Less y x = true
    · rw [if_pos h]
      exact ((insertByID_perm x ys).cons y).trans (List.Perm.swap x y ys)
    · rw [if_neg h]

theorem sortByID_perm : ∀ l : List I18nStringInfo, (sortByID l).Perm l
  | [] => List.Perm.refl _
  | x :: xs => by
    have : sortByID (x :: xs) = insertByID x (sortByID xs) := rfl
    rw [this]
    exact (insertByID_perm x _).trans ((sortByID_perm xs).cons x)

theorem insertByID_sorted (x : I18nStringInfo) :
    ∀ l : List I18nStringInfo, l.Pairwise (fun a b => Less b a = false) →
      (insertByID x l).Pairwise (fun a b => Less b a = false)
  | [], _ => List.pairwise_singleton _ _
  | y :: ys, h => by
    unfold insertByID
    rw [List.pairwise_cons] at h
    by_cases hyx : Less y x = true
    · rw [if_pos hyx, List.pairwise_cons]
      refine ⟨?_, insertByID_sorted x ys h.2⟩
      intro z hz
      rcases List.mem_cons.mp ((insertByID_perm x ys).mem_iff.mp hz) with rfl | hz
      · exact Less_asymm y z hyx
      · exact h.1 z hz
    · rw [if_neg hyx]
      have hyx2 : Less y x = false := by simpa using hyx
      rw [List.pairwise_cons]
      refine ⟨?_, List.pairwise_cons.mpr h⟩
      intro z hz
      rcases List.mem_cons.mp hz with rfl | hz
      · exact hyx2
      · exact notLess_trans x y z hyx2 (h.1 z hz)

/-- After `sortByID` no entry is `Less` than an entry before it. -/
theorem sortByID_sorted : ∀ l : List I18nStringInfo,
    (sortByID l).Pairwise (fun a b => Less b a = false)
  | [] => List.Pairwise.nil
  | x :: xs => by
    have : sortByID (x :: xs) = insertByID x (sortByID xs) := rfl
    rw [this]
    exact insertByID_sorted x _ (sortByID_sorted xs)

/-- A list without repeated ids in which no entry is `Less` than an earlier
one is in strictly ascending order of id. -/
theorem strict_of_sorted_nodup (l : List I18nStringInfo)
    (hs : l.Pairwise (fun a b => Less b a = false)) (hnd : (idsOf l).Nodup) :
    l.Pairwise (fun a b => Less a b = true) := by
  induction l with
  | nil => exact List.Pairwise.nil
  | cons x xs ih =>
    rw [List.pairwise_cons] at hs ⊢
    simp only [idsOf, List.map_cons, List.nodup_cons] at hnd
    refine ⟨?_, ih hs.2 hnd.2⟩
    intro z hz
    cases hxz : Less x z with
    | true => rfl
    | false =>
      exfalso
      apply hnd.1
      rw [ID_eq_of_not_Less x z hxz (hs.1 z hz)]
      exact List.mem_map.mpr ⟨z, hz, rfl⟩

/-- Two lists in strictly ascending order of id with the same entries are
equal. -/
theorem eq_of_perm_of_strict (l1 l2 : List I18nStringInfo) (hp : l1.Perm l2)
    (h1 : l1.Pairwise (fun a b => Less a b = true))
    (h2 : l2.Pairwise (fun a b => Less a b = true)) : l1 = l2 := by
  haveI : IsAntisymm I18nStringInfo (fun a b => Less a b = true) :=
    ⟨fun a b hab hba => by
      rw [Less_asymm a b hab] at hba
      exact Bool.noConfusion hba⟩
  exact List.eq_of_perm_of_sorted hp h1 h2

theorem has_LoadOrStore (m : InfoMap) (k : String) (v : I18nStringInfo) (k2 : String) :
    (LoadOrStore m k v).has k2 = (m.has k2 || k == k2) := by
  unfold LoadOrStore
  by_cases h : m.has k = true
  · rw [if_pos h]
    by_cases hk : k = k2
    · subst hk; simp [h]
    · have : (k == k2) = false := by simpa using hk
      simp [this]
  · rw [if_neg h, has_append]

theorem keys_LoadOrStore_nodup (m : InfoMap) (k : String) (v : I18nStringInfo)
    (h : (keysForI18nStringInfoMap m).Nodup) :
    (keysForI18nStringInfoMap (LoadOrStore m k v)).Nodup := by
  unfold LoadOrStore
  by_cases hk : m.has k = true
  · rw [if_pos hk]; exact h
  · rw [if_neg hk]
    have hk2 : m.has k = false := by simpa using hk
    rw [has_eq_false_iff] at hk2
    simp only [keysForI18nStringInfoMap, List.map_append, List.map_cons, List.map_nil] at hk2 ⊢
    rw [List.nodup_append]
    refine ⟨h, List.nodup_singleton _, ?_⟩
    intro a ha hb
    rw [List.mem_singleton] at hb
    subst hb
    exact hk2 ha

theorem mem_LoadOrStore (m : InfoMap) (k : String) (v : I18nStringInfo)
    (kv : String × I18nStringInfo) (h : kv ∈ LoadOrStore m k v) :
    kv ∈ m ∨ kv = (k, v) := by
  unfold LoadOrStore at h
  by_cases hk : m.has k = true
  · rw [if_pos hk] at h; exact Or.inl h
  · rw [if_neg hk] at h
    rcases List.mem_append.mp h with h | h
    · exact Or.inl h
    · exact Or.inr (List.mem_singleton.mp h)

theorem storeAll_cons (m : InfoMap) (s : I18nStringInfo) (l : List I18nStringInfo) :
    storeAll m (s :: l) = storeAll (LoadOrStore m s.ID s) l := rfl

theorem storeAll_append (m : InfoMap) (l1 l2 : List I18nStringInfo) :
    storeAll m (l1 ++ l2) = storeAll (storeAll m l1) l2 := by
  unfold storeAll
  rw [List.foldl_append]

theorem has_storeAll (l : List I18nStringInfo) :
    ∀ (m : InfoMap) (k : String),
      (storeAll m l).has k = true ↔ (m.has k = true ∨ k ∈ idsOf l) := by
  induction l with
  | nil => intro m k; simp [storeAll]
  | cons s rest ih =>
    intro m k
    rw [storeAll_cons, ih, has_LoadOrStore]
    simp only [Bool.or_eq_true, beq_iff_eq, idsOf, List.map_cons, List.mem_cons]
    constructor
    · rintro ((h | h) | h)
      · exact Or.inl h
      · exact Or.inr (Or.inl h.symm)
      · exact Or.inr (Or.inr h)
    · rintro (h | h | h)
      · exact Or.inl (Or.inl h)
      · exact Or.inl (Or.inr h.symm)
      · exact Or.inr h

theorem keys_storeAll_nodup (l : List I18nStringInfo) :
    ∀ m : InfoMap, (keysForI18nStringInfoMap m).Nodup →
      (keysForI18nStringInfoMap (storeAll m l)).Nodup := by
  induction l with
  | nil => intro m h; exact h
  | cons s rest ih =>
    intro m h
    rw [storeAll_cons]
    exact ih _ (keys_LoadOrStore_nodup m s.ID s h)

theorem mem_storeAll (l : List I18nStringInfo) :
    ∀ (m : InfoMap) (kv : String × I18nStringInfo), kv ∈ storeAll m l →
      kv ∈ m ∨ (kv.2 ∈ l ∧ kv.2.ID = kv.1) := by
  induction l with
  | nil => intro m kv h; exact Or.inl h
  | cons s rest ih =>
    intro m kv h
    rw [storeAll_cons] at h
    rcases ih _ kv h with h | ⟨h1, h2⟩
    · rcases mem_LoadOrStore m s.ID s kv h with h | h
      · exact Or.inl h
      · subst h
        exact Or.inr ⟨List.mem_cons_self _ _, rfl⟩
    · exact Or.inr ⟨List.mem_cons_of_mem _ h1, h2⟩

/-- The ids of the values of the map built from the empty map are its keys. -/
theorem ids_values_storeAll (l : List I18nStringInfo) :
    idsOf ((storeAll [] l).map Prod.snd) = keysForI18nStringInfoMap (storeAll [] l) := by
  simp only [idsOf, keysForI18nStringInfoMap, List.map_map]
  apply List.map_congr_left
  intro kv hkv
  rcases mem_storeAll l [] kv hkv with h | ⟨_, h⟩
  · exact absurd h (List.not_mem_nil _)
  · exact h

/-- After all stores the map holds every id of the schedule once, and only
entries of the schedule. -/
theorem storeAll_values (l : List I18nStringInfo) :
    (idsOf ((storeAll [] l).map Prod.snd)).Nodup ∧
    (∀ id, id ∈ idsOf ((storeAll [] l).map Prod.snd) ↔ id ∈ idsOf l) ∧
    (∀ e ∈ (storeAll [] l).map Prod.snd, e ∈ l) := by
  refine ⟨?_, ?_, ?_⟩
  · rw [ids_values_storeAll]
    exact keys_storeAll_nodup l [] List.nodup_nil
  · intro id
    rw [ids_values_storeAll, ← has_iff, has_storeAll]
    simp [InfoMap.has]
  · intro e he
    obtain ⟨kv, hkv, rfl⟩ := List.mem_map.mp he
    rcases mem_storeAll l [] kv hkv with h | ⟨h, _⟩
    · exact absurd h (List.not_mem_nil _)
    · exact h

theorem loadShards_eq (files : List (String × Except String (List I18nStringInfo))) :
    ∀ m m2 : InfoMap, loadShards m files = Except.ok m2 →
      m2 = storeAll m (shardEntries files) := by
  induction files with
  | nil =>
    intro m m2 h
    simp only [loadShards, Except.ok.injEq] at h
    exact h.symm
  | cons f rest ih =>
    intro m m2 h
    obtain ⟨name, content⟩ := f
    cases content with
    | error e => simp [loadShards] at h
    | ok infos =>
      simp only [loadShards] at h
      rw [ih _ m2 h]
      simp only [shardEntries]
      rw [storeAll_append]
      rfl

theorem loadShards_ok (files : List (String × Except String (List I18nStringInfo)))
    (hok : ∀ f ∈ files, ∃ infos, f.2 = Except.ok infos) :
    ∀ m : InfoMap, loadShards m files = Except.ok (storeAll m (shardEntries files)) := by
  induction files with
  | nil => intro m; rfl
  | cons f rest ih =>
    intro m
    obtain ⟨name, content⟩ := f
    obtain ⟨infos, hinfos⟩ := hok (name, content) (List.mem_cons_self _ _)
    simp only at hinfos
    subst hinfos
    simp only [loadShards, shardEntries]
    rw [ih (fun f hf => hok f (List.mem_cons_of_mem _ hf)), storeAll_append]
    rfl

/-- The catalog of a merge into an empty receiver: the sorted values of the
map of all stores. -/
theorem combineFiles_fresh (X : Externals) (ms : MergeStrings) (fs : FileSystem)
    (directory : String) (contents : List DirEntry) (hfresh : ms.I18nStringInfos = [])
    (hload : ∀ f ∈ matchFileToSourceLanguage (getFilesAndDir X directory contents).1
        ms.SourceLanguage, ∃ infos, f.2 = Except.ok infos) :
    ∃ ms2 fs2, combineFiles X ms fs directory contents = Except.ok (ms2, fs2) ∧
      ms2.I18nStringInfos =
        sortByID ((storeAll [] (shardEntries (matchFileToSourceLanguage
          (getFilesAndDir X directory contents).1 ms.SourceLanguage))).map Prod.snd) ∧
      ms2.Recurse = ms.Recurse ∧
      fs2 = (SaveI18nStringInfos ms.options fs ms2.I18nStringInfos
        (X.Join directory (ms.SourceLanguage ++ ".all.json"))).1 := by
  unfold combineFiles
  simp only [loadShards_ok _ hload, hfresh, List.nil_append]
  exact ⟨_, _, rfl, rfl, rfl, rfl⟩

/-- Whatever the order of the stores and of the range over the map, a sorted
output holds every id of the schedule once, in strictly ascending order. -/
theorem sorted_range_strict (entries schedule range out : List I18nStringInfo)
    (hs : schedule.Perm entries)
    (hr : range.Perm ((storeAll [] schedule).map Prod.snd))
    (ho : out.Perm range)
    (hsorted : out.Pairwise (fun a b => Less b a = false)) :
    out.Pairwise (fun a b => Less a b = true) ∧
    (idsOf out).Nodup ∧
    (∀ id, id ∈ idsOf out ↔ id ∈ idsOf entries) ∧
    (∀ e ∈ out, e ∈ entries) := by
  obtain ⟨hnd, hids, hmem⟩ := storeAll_values schedule
  have hperm : out.Perm ((storeAll [] schedule).map Prod.snd) := ho.trans hr
  have hnd2 : (idsOf out).Nodup := (hperm.map _).nodup_iff.mpr hnd
  refine ⟨strict_of_sorted_nodup out hsorted hnd2, hnd2, ?_, ?_⟩
  · intro id
    rw [(hperm.map (fun info => info.ID)).mem_iff, hids, (hs.map (fun info => info.ID)).mem_iff]
  · intro e he
    exact hs.mem_iff.mp (hmem e (hperm.mem_iff.mp he))

/-- Two sorted outputs of the same entries, stored and ranged over in any two
orders, are the same list when entries with the same id are identical. -/
theorem sorted_outputs_eq (entries schedule1 schedule2 range1 range2 out1 out2 :
      List I18nStringInfo)
    (hsame : ∀ a ∈ entries, ∀ b ∈ entries, a.ID = b.ID → a = b)
    (h1 : schedule1.Perm entries) (h2 : schedule2.Perm entries)
    (r1 : range1.Perm ((storeAll [] schedule1).map Prod.snd))
    (r2 : range2.Perm ((storeAll [] schedule2).map Prod.snd))
    (o1 : out1.Perm range1) (o2 : out2.Perm range2)
    (s1 : out1.Pairwise (fun a b => Less b a = false))
    (s2 : out2.Pairwise (fun a b => Less b a = false)) : out1 = out2 := by
  obtain ⟨t1, n1, i1, m1⟩ := sorted_range_strict entries schedule1 range1 out1 h1 r1 o1 s1
  obtain ⟨t2, n2, i2, m2⟩ := sorted_range_strict entries schedule2 range2 out2 h2 r2 o2 s2
  have nd1 : out1.Nodup := List.Nodup.of_map _ n1
  have nd2 : out2.Nodup := List.Nodup.of_map _ n2
  have hsub : ∀ (l l2 : List I18nStringInfo), (∀ e ∈ l, e ∈ entries) →
      (∀ e ∈ l2, e ∈ entries) → (∀ id, id ∈ idsOf l ↔ id ∈ idsOf l2) →
      ∀ e ∈ l, e ∈ l2 := by
    intro l l2 hl hl2 hid e he
    have : e.ID ∈ idsOf l2 := (hid e.ID).mp (List.mem_map.mpr ⟨e, he, rfl⟩)
    obtain ⟨e2, he2, hide⟩ := List.mem_map.mp this
    have heq : e2 = e := hsame e2 (hl2 e2 he2) e (hl e he) hide
    rw [← heq]
    exact he2
  have hperm : out1.Perm out2 := by
    classical
    rw [List.perm_ext_iff_of_nodup nd1 nd2]
    intro e
    constructor
    · exact hsub out1 out2 m1 m2 (fun id => (i1 id).trans (i2 id).symm) e
    · exact hsub out2 out1 m2 m1 (fun id => (i2 id).trans (i1 id).symm) e
  exact eq_of_perm_of_strict out1 out2 hperm t1 t2

theorem combineSubdirectories_nil (X : Externals) (ms : MergeStrings) (fs : FileSystem)
    (parent : String) : combineSubdirectories X ms fs parent [] = (ms, fs, none) := by
  unfold combineSubdirectories
  rfl

theorem combineSubdirectories_file (X : Externals) (ms : MergeStrings) (fs : FileSystem)
    (parent : String) (name : String) (content : Except String (List I18nStringInfo))
    (rest : List DirEntry) :
    combineSubdirectories X ms fs parent (DirEntry.file name content :: rest) =
      combineSubdirectories X ms fs parent rest := by
  conv => lhs; unfold combineSubdirectories

theorem combineSubdirectories_dir (X : Externals) (ms : MergeStrings) (fs : FileSystem)
    (parent : String) (name : String) (contents : List DirEntry) (rest : List DirEntry) :
    combineSubdirectories X ms fs parent (DirEntry.dir name contents :: rest) =
      match combineStringInfosPerDirectory X ms fs (X.Join parent name)
          (DirEntry.dir name contents) with
      | (ms2, fs2, some err) => (ms2, fs2, some err)
      | (ms2, fs2, none) => combineSubdirectories X ms2 fs2 parent rest := by
  conv => lhs; unfold combineSubdirectories

theorem combineStringInfosPerDirectory_dir (X : Externals) (ms : MergeStrings)
    (fs : FileSystem) (directory : String) (name : String) (contents : List DirEntry) :
    combineStringInfosPerDirectory X ms fs directory (DirEntry.dir name contents) =
      match combineFiles X ms fs directory contents with
      | Except.error e => (ms, fs, some e)
      | Except.ok (ms2, fs2) =>
        if ms2.Recurse then combineSubdirectories X ms2 fs2 directory contents
        else (ms2, fs2, none) := by
  conv => lhs; unfold combineStringInfosPerDirectory

/-- The loop over the subdirectories stops at the first one that returns an
error. -/
theorem combineSubdirectories_stops (X : Externals) (parent : String) (name : String)
    (contents post : List DirEntry) (ms1 ms2 : MergeStrings) (fs1 fs2 : FileSystem)
    (e : String)
    (hfail : combineStringInfosPerDirectory X ms1 fs1 (X.Join parent name)
      (DirEntry.dir name contents) = (ms2, fs2, some e)) :
    ∀ (pre : List DirEntry) (ms : MergeStrings) (fs : FileSystem),
      combineSubdirectories X ms fs parent pre = (ms1, fs1, none) →
      combineSubdirectories X ms fs parent (pre ++ DirEntry.dir name contents :: post) =
        (ms2, fs2, some e) := by
  intro pre
  induction pre with
  | nil =>
    intro ms fs hpre
    rw [combineSubdirectories_nil] at hpre
    simp only [Prod.mk.injEq, and_true] at hpre
    obtain ⟨rfl, rfl⟩ := hpre
    rw [List.nil_append, combineSubdirectories_dir, hfail]
  | cons d rest ih =>
    intro ms fs hpre
    cases d with
    | file n c =>
      rw [combineSubdirectories_file] at hpre
      rw [List.cons_append, combineSubdirectories_file]
      exact ih ms fs hpre
    | dir n c =>
      rw [combineSubdirectories_dir] at hpre
      rw [List.cons_append, combineSubdirectories_dir]
      rcases hres : combineStringInfosPerDirectory X ms fs (X.Join parent n)
        (DirEntry.dir n c) with ⟨a, b, err⟩
      rw [hres] at hpre
      cases err with
      | some x => simp at hpre
      | none =>
        simp only at hpre ⊢
        exact ih a b hpre

theorem loadShards_error (files : List (String × Except String (List I18nStringInfo)))
    (hbad : ∃ f ∈ files, ∃ msg, f.2 = Except.error msg) :
    ∀ m : InfoMap, ∃ e, loadShards m files = Except.error e := by
  induction files with
  | nil =>
    obtain ⟨f, hf, _⟩ := hbad
    exact absurd hf (List.not_mem_nil _)
  | cons f rest ih =>
    intro m
    obtain ⟨name, content⟩ := f
    cases content with
    | error msg => exact ⟨_, rfl⟩
    | ok infos =>
      simp only [loadShards]
      apply ih
      obtain ⟨g, hg, msg, hmsg⟩ := hbad
      rcases List.mem_cons.mp hg with rfl | hg
      · simp at hmsg
      · exact ⟨g, hg, msg, hmsg⟩

/-- The scan `containsChars` finds `sub` exactly when it is a contiguous part
of the list. -/
theorem containsChars_iff (sub : List Char) :
    ∀ s : List Char, containsChars sub s = true ↔ sub <:+: s := by
  intro s
  induction s with
  | nil =>
    simp only [containsChars, List.isEmpty_iff, List.infix_nil]
  | cons c cs ih =>
    simp only [containsChars, Bool.or_eq_true, ih, List.infix_cons_iff,
      List.isPrefixOf_iff_prefix]

theorem stringsContains_iff (s substr : String) :
    stringsContains s substr = true ↔ substr.data <:+: s.data :=
  containsChars_iff _ _

/-- The files of `getFilesAndDir`: the files of the listing in their order,
under their joined paths. -/
theorem getFilesAndDir_files (X : Externals) (dir : String) :
    ∀ contents : List DirEntry,
      (getFilesAndDir X dir contents).1 =
        contents.filterMap (fun e =>
          match e with
          | DirEntry.file name content => some (X.Join dir name, content)
          | DirEntry.dir _ _ => none) := by
  intro contents
  induction contents with
  | nil => rfl
  | cons e rest ih =>
    cases e with
    | file n c => simp only [getFilesAndDir, ih, List.filterMap_cons]
    | dir n c => simp only [getFilesAndDir, ih, List.filterMap_cons]

/-- One block of the report with the dry-run flag off, `CheckFile` accepting
the target and no failing write: the diff file of a non-empty set is written
and the error is overwritten. -/
theorem diffBlock_written (X : Externals) (vs : verifyStrings) (suffix : String)
    (infos : List I18nStringInfo) (targetFilename name pathName message : String)
    (state : FileSystem × Option String)
    (hdry : vs.options.DryRunFlag = false)
    (hcheck : ∀ f, X.CheckFile f targetFilename = Except.ok (name, pathName))
    (hw : ∀ p, state.1.writeErr p = none) :
    ∃ f2, diffBlock (decide (infos.length > 0))
        (fun f => generateDiffFile X vs f suffix infos targetFilename) message state =
        Except.ok (f2, if infos.length > 0 then some message else state.2) ∧
      f2.written = state.1.written ++
        artifactOf (diffFilenameOf X vs name pathName suffix) infos ∧
      ∀ p, f2.writeErr p = none := by
  cases infos with
  | nil =>
    refine ⟨state.1, ?_, ?_, hw⟩
    · simp [diffBlock]
    · simp [artifactOf]
  | cons a l =>
    refine ⟨{ load := fun p =>
                if p = diffFilenameOf X vs name pathName suffix then Except.ok (a :: l)
                else state.1.load p
              writeErr := state.1.writeErr
              written := state.1.written ++
                [(diffFilenameOf X vs name pathName suffix, a :: l)] }, ?_, ?_, hw⟩
    · simp [diffBlock, generateDiffFile, hcheck, SaveI18nStringInfos, hdry,
        FileSystem.writeFile, hw, diffFilenameOf]
    · simp [artifactOf]

/-- The report with the dry-run flag off and no failure: the diff files
written and the error returned. -/
theorem verifyReport_written (X : Externals) (vs : verifyStrings) (fs : FileSystem)
    (d : Diff) (targetFilename name pathName : String)
    (hdry : vs.options.DryRunFlag = false)
    (hcheck : ∀ f, X.CheckFile f targetFilename = Except.ok (name, pathName))
    (hwrite : ∀ p, fs.writeErr p = none) :
    ∃ fs2, verifyReport X vs fs d targetFilename =
        (fs2,
          if d.inputMap.length > 0 then some (missingError d.inputMap)
          else if d.targetInvalidStringInfos.length > 0 then
            some (invalidError d.targetInvalidStringInfos)
          else if d.targetExtraStringInfos.length > 0 then
            some (extraError d.targetExtraStringInfos)
          else none) ∧
      fs2.written = fs.written ++
        artifactOf (diffFilenameOf X vs name pathName ".extra.diff.json")
          d.targetExtraStringInfos ++
        artifactOf (diffFilenameOf X vs name pathName ".invalid.diff.json")
          d.targetInvalidStringInfos ++
        artifactOf (diffFilenameOf X vs name pathName ".missing.diff.json")
          (valuesForI18nStringInfoMap d.inputMap) := by
  obtain ⟨f1, h1, w1, e1⟩ := diffBlock_written X vs ".extra.diff.json"
    d.targetExtraStringInfos targetFilename name pathName
    (extraError d.targetExtraStringInfos) (fs, none) hdry hcheck hwrite
  obtain ⟨f2, h2, w2, e2⟩ := diffBlock_written X vs ".invalid.diff.json"
    d.targetInvalidStringInfos targetFilename name pathName
    (invalidError d.targetInvalidStringInfos)
    (f1, if d.targetExtraStringInfos.length > 0 then
      some (extraError d.targetExtraStringInfos) else none) hdry hcheck e1
  obtain ⟨f3, h3, w3, _⟩ := diffBlock_written X vs ".missing.diff.json"
    (valuesForI18nStringInfoMap d.inputMap) targetFilename name pathName
    (missingError d.inputMap)
    (f2, if d.targetInvalidStringInfos.length > 0 then
        some (invalidError d.targetInvalidStringInfos)
      else if d.targetExtraStringInfos.length > 0 then
        some (extraError d.targetExtraStringInfos) else none) hdry hcheck e2
  have hlen : (valuesForI18nStringInfoMap d.inputMap).length = d.inputMap.length := by
    simp [valuesForI18nStringInfoMap]
  rw [hlen] at h3
  refine ⟨f3, ?_, ?_⟩
  · unfold verifyReport generateExtraKeysDiffFile generateInvalidTranslationDiffFile
      generateMissingKeysDiffFile
    simp only [h1, h2, h3, bind, Except.bind]
  · rw [w3, w2, w1]

/-- A separator that ends in a line break can be split: the line break goes to
the head of every text. -/
theorem joinWith_lineBreak {α : Type} (f : α → String) (lb : String) :
    ∀ (a : α) (l : List α),
      lb ++ joinWith ("," ++ lb) ((a :: l).map f) =
        joinWith "," ((a :: l).map (fun x => lb ++ f x))
  | a, [] => rfl
  | a, b :: l => by
    have ih := joinWith_lineBreak f lb b l
    simp only [List.map_cons, joinWith] at ih ⊢
    rw [← ih]
    simp only [String.append_assoc]

/-- After a templated value the loop over the translations goes on to the
other values exactly when the value has no missing and no excess argument. -/
theorem invalidAmong_cons_templated (X : Externals) (id t : String) (rest : List String)
    (ht : X.IsTemplatedString t = true) :
    invalidAmong X id (t :: rest) = (invalidAmong X id [t] || invalidAmong X id rest) := by
  simp only [invalidAmong, ht, Bool.not_true, Bool.false_eq_true, if_false]
  split
  · rfl
  · split
    · rfl
    · rfl

/-- When every value is templated, the loop returns true as soon as one value
has a missing or an excess argument, wherever it stands. -/
theorem invalidAmong_of_violation (X : Externals) (id : String) :
    ∀ ts : List String, (∀ t ∈ ts, X.IsTemplatedString t = true) →
      (∃ t ∈ ts, invalidAmong X id [t] = true) → invalidAmong X id ts = true := by
  intro ts
  induction ts with
  | nil =>
    rintro _ ⟨t, ht, _⟩
    exact absurd ht (List.not_mem_nil _)
  | cons a rest ih =>
    intro hall hex
    rw [invalidAmong_cons_templated X id a rest (hall a (List.mem_cons_self _ _))]
    obtain ⟨t, ht, hv⟩ := hex
    rcases List.mem_cons.mp ht with rfl | ht
    · rw [hv]; rfl
    · rw [ih (fun x hx => hall x (List.mem_cons_of_mem _ hx)) ⟨t, ht, hv⟩]
      exact Bool.or_true _

/-- A turn of the loop panics only for a templated id that is a key of the
map and whose translation has an unexpected shape. -/
theorem verifyStep_isSome_of (X : Externals) (d : Diff) (e : I18nStringInfo)
    (h : X.IsTemplatedString e.ID = true → d.inputMap.has e.ID = true →
      e.Translations ≠ none) :
    (verifyStep X d e).isSome = true := by
  unfold verifyStep
  by_cases hhas : d.inputMap.has e.ID = true
  · rw [if_pos hhas]
    by_cases ht : X.IsTemplatedString e.ID = true
    · rw [if_pos ht]
      unfold isTemplatedStringTranslationInvalid
      simp only [ht, Bool.not_true, Bool.false_eq_true, if_false]
      cases htr : e.Translations with
      | none => exact absurd htr (h ht hhas)
      | some ts =>
        simp only
        cases invalidAmong X e.ID ts <;> rfl
    · rw [if_neg ht]; rfl
  · rw [if_neg hhas]; rfl

/-- A turn of the loop on a templated id that is a key of the map and whose
translation has an unexpected shape panics. -/
theorem verifyStep_panics (X : Externals) (d : Diff) (e : I18nStringInfo)
    (ht : X.IsTemplatedString e.ID = true) (hhas : d.inputMap.has e.ID = true)
    (hshape : e.Translations = none) : verifyStep X d e = none := by
  unfold verifyStep isTemplatedStringTranslationInvalid
  simp [hhas, ht, hshape]

theorem verifyLoop_isSome_of (X : Externals) (target : List I18nStringInfo) :
    ∀ d : Diff,
      (∀ e ∈ target, X.IsTemplatedString e.ID = true → d.inputMap.has e.ID = true →
        e.Translations ≠ none) →
      (verifyLoop X d target).isSome = true := by
  induction target with
  | nil => intro d _; rfl
  | cons a rest ih =>
    intro d h
    unfold verifyLoop
    have h1 := verifyStep_isSome_of X d a (h a (List.mem_cons_self _ _))
    cases hs : verifyStep X d a with
    | none => rw [hs] at h1; exact Bool.noConfusion h1
    | some d1 =>
      simp only
      apply ih d1
      intro e he ht hhas
      apply h e (List.mem_cons_of_mem _ he) ht
      rw [(verifyStep_spec X d d1 a hs).1, has_delete] at hhas
      simp only [Bool.and_eq_true] at hhas
      exact hhas.1

theorem verifyLoop_cons (X : Externals) (d : Diff) (a : I18nStringInfo)
    (rest : List I18nStringInfo) :
    verifyLoop X d (a :: rest) =
      match verifyStep X d a with
      | none => none
      | some d2 => verifyLoop X d2 rest := rfl

theorem verifyLoop_append (X : Externals) (pre : List I18nStringInfo) :
    ∀ (d : Diff) (post : List I18nStringInfo),
      verifyLoop X d (pre ++ post) =
        match verifyLoop X d pre with
        | none => none
        | some d1 => verifyLoop X d1 post := by
  induction pre with
  | nil => intro d post; rfl
  | cons a rest ih =>
    intro d post
    rw [List.cons_append, verifyLoop_cons, verifyLoop_cons]
    cases verifyStep X d a with
    | none => rfl
    | some d1 => exact ih d1 post

/-- The loop panics when it reaches a templated id that is still a key of the
map and whose translation has an unexpected shape. -/
theorem verifyLoop_panics (X : Externals) (d d1 : Diff) (pre post : List I18nStringInfo)
    (e : I18nStringInfo) (hpre : verifyLoop X d pre = some d1)
    (ht : X.IsTemplatedString e.ID = true) (hhas : d1.inputMap.has e.ID = true)
    (hshape : e.Translations = none) :
    verifyLoop X d (pre ++ e :: post) = none := by
  rw [verifyLoop_append, hpre]
  simp only
  rw [verifyLoop_cons, verifyStep_panics X d1 e ht hhas hshape]

/-! ## Theorems -/

/-- C1 (placeholder symmetry): for an entry with a templated id and a single,
templated string as translation, `isTemplatedStringTranslationInvalid` returns
true exactly when the arguments of the id other than `count` are not all among
the arguments of the translation, or the arguments of the translation are not
all among those of the id. -/
theorem placeholder_symmetry (X : Externals) (stringInfo : I18nStringInfo) (t : String)
    (hid : X.IsTemplatedString stringInfo.ID = true)
    (htr : stringInfo.Translation = Json.str t)
    (ht : X.IsTemplatedString t = true) :
    isTemplatedStringTranslationInvalid X stringInfo =
      some (decide
        (¬ ((X.GetTemplatedStringArgs stringInfo.ID).toFinset \ {"count"} ⊆
              (X.GetTemplatedStringArgs t).toFinset) ∨
         ¬ ((X.GetTemplatedStringArgs t).toFinset ⊆
              (X.GetTemplatedStringArgs stringInfo.ID).toFinset))) := by
  unfold isTemplatedStringTranslationInvalid I18nStringInfo.Translations
  rw [htr]
  simp only [hid, Bool.not_true, Bool.false_eq_true, if_false]
  rw [invalidAmong_single X stringInfo.ID t ht]

/-- Witness of C1: the id `Hi {name}, {count} new` with the translation
`Hola {name}`. -/
theorem placeholder_symmetry_witness :
    specIsTemplatedString "Hi {name}, {count} new" = true ∧
    specIsTemplatedString "Hola {name}" = true ∧
    isTemplatedStringTranslationInvalid specExternals
        (entry "Hi {name}, {count} new" "Hola {name}") =
      some (decide
        (¬ ((specGetTemplatedStringArgs "Hi {name}, {count} new").toFinset \ {"count"} ⊆
              (specGetTemplatedStringArgs "Hola {name}").toFinset) ∨
         ¬ ((specGetTemplatedStringArgs "Hola {name}").toFinset ⊆
              (specGetTemplatedStringArgs "Hi {name}, {count} new").toFinset))) :=
  ⟨by decide, by decide,
    placeholder_symmetry specExternals (entry "Hi {name}, {count} new" "Hola {name}")
      "Hola {name}" (by decide) rfl (by decide)⟩

/-- Counterexample to C2 as stated: the id `Welcome {name}` is templated, the
translation `Bienvenido` is not, and `isTemplatedStringTranslationInvalid`
returns false; `verify` of the target holding this entry leaves the invalid
set empty, writes no diff file and returns no error. -/
theorem untemplated_translation_counterexample :
    specIsTemplatedString "Welcome {name}" = true ∧
    specIsTemplatedString "Bienvenido" = false ∧
    isTemplatedStringTranslationInvalid specExternals
      (entry "Welcome {name}" "Bienvenido") = some false ∧
    (verifyLoop specExternals
        { inputMap := [("Welcome {name}", entry "Welcome {name}" "Welcome {name}")]
          targetExtraStringInfos := []
          targetInvalidStringInfos := [] }
        [entry "Welcome {name}" "Bienvenido"]).map
      (fun d => idsOf d.targetInvalidStringInfos) = some [] ∧
    (verify specExternals (verifierOf ["es.json"])
        (filesOf [("en.json", [entry "Welcome {name}" "Welcome {name}"]),
                  ("es.json", [entry "Welcome {name}" "Bienvenido"])])
        "en.json" "es.json").map
      (fun r => (r.1.written.map Prod.fst, r.2)) = some ([], none) := by
  decide

/-- C2, amended: for an entry with a templated id whose translation is a
single string that is not templated, `isTemplatedStringTranslationInvalid`
returns false, and the loop of `verify` does not put the entry in the invalid
set. -/
theorem untemplated_translation_not_invalid (X : Externals) (stringInfo : I18nStringInfo)
    (t : String)
    (hid : X.IsTemplatedString stringInfo.ID = true)
    (htr : stringInfo.Translation = Json.str t)
    (ht : X.IsTemplatedString t = false) :
    isTemplatedStringTranslationInvalid X stringInfo = some false ∧
    (∀ d : Diff, ∃ d2, verifyStep X d stringInfo = some d2 ∧
      d2.targetInvalidStringInfos = d.targetInvalidStringInfos) ∧
    (∀ (d d2 : Diff) (target : List I18nStringInfo), verifyLoop X d target = some d2 →
      stringInfo ∈ d2.targetInvalidStringInfos → stringInfo ∈ d.targetInvalidStringInfos) := by
  have hfalse : isTemplatedStringTranslationInvalid X stringInfo = some false := by
    unfold isTemplatedStringTranslationInvalid I18nStringInfo.Translations
    rw [htr]
    simp [hid, invalidAmong, ht]
  refine ⟨hfalse, ?_, ?_⟩
  · intro d
    unfold verifyStep
    rw [hfalse]
    by_cases hh : d.inputMap.has stringInfo.ID = true
    · simp [hh, hid]
    · simp [hh]
  · intro d d2 target hloop hmem
    rcases (verifyLoop_sets X target d d2 hloop).2.2 stringInfo hmem with h | ⟨_, _, _, h⟩
    · exact h
    · rw [hfalse] at h
      simp at h

/-- Witness of C2, amended: the entry `Welcome {name}` translated as
`Bienvenido`. -/
theorem untemplated_translation_not_invalid_witness :
    specExternals.IsTemplatedString (entry "Welcome {name}" "Bienvenido").ID = true ∧
    specExternals.IsTemplatedString "Bienvenido" = false ∧
    isTemplatedStringTranslationInvalid specExternals
      (entry "Welcome {name}" "Bienvenido") = some false :=
  ⟨by decide, by decide,
    (untemplated_translation_not_invalid specExternals (entry "Welcome {name}" "Bienvenido")
      "Bienvenido" (by decide) rfl (by decide)).1⟩

/-- C3 (verification completeness): for a source catalog with unique ids the
map of `verify` is built, and what remains in it after the loop over a target
catalog is exactly the source entries whose id is the id of no target entry,
each once (up to the order, which a Go map leaves open).  The loop ends
without panic when every target translation is a string or a mapping. -/
theorem verify_missing_exact (X : Externals) (source target : List I18nStringInfo)
    (hnd : (idsOf source).Nodup) :
    ∃ inputMap, CreateI18nStringInfoMap source = Except.ok inputMap ∧
      (∀ d, verifyLoop X { inputMap := inputMap
                           targetExtraStringInfos := []
                           targetInvalidStringInfos := [] } target = some d →
        (valuesForI18nStringInfoMap d.inputMap).Perm
          (source.filter (fun s => decide (s.ID ∉ idsOf target)))) ∧
      ((∀ e ∈ target, e.Translations ≠ none) →
        ∃ d, verifyLoop X { inputMap := inputMap
                            targetExtraStringInfos := []
                            targetInvalidStringInfos := [] } target = some d) := by
  refine ⟨_, CreateI18nStringInfoMap_of_nodup source hnd, ?_, ?_⟩
  · intro d hd
    rw [verifyLoop_inputMap X target _ d hd]
    have heq : (List.filter (fun kv => decide (kv.1 ∉ idsOf target))
          (source.map (fun i => (i.ID, i)))).map Prod.snd =
        source.filter (fun s => decide (s.ID ∉ idsOf target)) := by
      rw [List.filter_map, List.map_map]
      exact List.map_id _
    unfold valuesForI18nStringInfoMap
    rw [heq]
  · intro hshape
    exact Option.isSome_iff_exists.mp (verifyLoop_isSome X target _ hshape)

/-- Witness of C3: source `hello`, `bye`; target `hello`. -/
theorem verify_missing_exact_witness :
    (idsOf [entry "hello" "hello", entry "bye" "bye"]).Nodup ∧
    ∃ inputMap,
      CreateI18nStringInfoMap [entry "hello" "hello", entry "bye" "bye"] =
        Except.ok inputMap ∧
      (∀ d, verifyLoop specExternals { inputMap := inputMap
                                       targetExtraStringInfos := []
                                       targetInvalidStringInfos := [] }
              [entry "hello" "hola"] = some d →
        (valuesForI18nStringInfoMap d.inputMap).Perm
          ([entry "hello" "hello", entry "bye" "bye"].filter
            (fun s => decide (s.ID ∉ idsOf [entry "hello" "hola"])))) ∧
      ((∀ e ∈ [entry "hello" "hola"], e.Translations ≠ none) →
        ∃ d, verifyLoop specExternals { inputMap := inputMap
                                        targetExtraStringInfos := []
                                        targetInvalidStringInfos := [] }
              [entry "hello" "hola"] = some d) :=
  ⟨by decide,
    verify_missing_exact specExternals [entry "hello" "hello", entry "bye" "bye"]
      [entry "hello" "hola"] (by decide)⟩

/-- Counterexample to C4 as stated: with the source `hello` and a target in
which `hello` occurs twice, the second occurrence is put in extra although its
id is present in the source catalog. -/
theorem extra_repeated_id_counterexample :
    CreateI18nStringInfoMap [entry "hello" "hello"] =
      Except.ok [("hello", entry "hello" "hello")] ∧
    "hello" ∈ idsOf [entry "hello" "hello"] ∧
    (verifyLoop specExternals
        { inputMap := [("hello", entry "hello" "hello")]
          targetExtraStringInfos := []
          targetInvalidStringInfos := [] }
        [entry "hello" "hola", entry "hello" "buenas"]) =
      some { inputMap := []
             targetExtraStringInfos := [entry "hello" "buenas"]
             targetInvalidStringInfos := [] } :=
  ⟨rfl, by decide, rfl⟩

/-- C4, amended: for a source catalog with unique ids and any target catalog,
every target entry whose id is absent from the source catalog is put in
extra; when no id occurs more than once in the target catalog, the extra set
consists of exactly these entries, in their order, so that no entry whose id
is present in the source catalog is in it. -/
theorem verify_extra_exact (X : Externals) (source target : List I18nStringInfo)
    (hnd : (idsOf source).Nodup) :
    ∃ inputMap, CreateI18nStringInfoMap source = Except.ok inputMap ∧
      ∀ d, verifyLoop X { inputMap := inputMap
                          targetExtraStringInfos := []
                          targetInvalidStringInfos := [] } target = some d →
        (∀ e ∈ target, e.ID ∉ idsOf source → e ∈ d.targetExtraStringInfos) ∧
        ((idsOf target).Nodup →
          d.targetExtraStringInfos =
              target.filter (fun e => decide (e.ID ∉ idsOf source)) ∧
          ∀ e ∈ d.targetExtraStringInfos, e.ID ∉ idsOf source) := by
  refine ⟨_, CreateI18nStringInfoMap_of_nodup source hnd, ?_⟩
  intro d hd
  have hkeys : ∀ k, InfoMap.has (source.map (fun i => (i.ID, i))) k = true ↔
      k ∈ idsOf source := by
    intro k
    rw [has_iff]
    simp [keysForI18nStringInfoMap, idsOf, List.map_map, Function.comp_def]
  have hfilter : target.filter
        (fun e => !(InfoMap.has (source.map (fun i => (i.ID, i))) e.ID)) =
      target.filter (fun e => decide (e.ID ∉ idsOf source)) := by
    apply List.filter_congr
    intro e _
    rw [Bool.eq_iff_iff]
    simp only [Bool.not_eq_true', decide_eq_true_eq, ← hkeys, Bool.not_eq_true]
  refine ⟨?_, ?_⟩
  · intro e he habs
    apply (verifyLoop_sets X target _ d hd).1 e he
    rw [← Bool.not_eq_true, hkeys]
    exact habs
  · intro hndt
    have hex := verifyLoop_extra_of_nodup X target _ d hndt hd
    simp only [List.nil_append] at hex
    rw [hfilter] at hex
    refine ⟨hex, ?_⟩
    intro e he
    rw [hex, List.mem_filter] at he
    simpa using he.2

/-- Witness of C4, amended: source `hello`; target `hello`, `ghost`. -/
theorem verify_extra_exact_witness :
    (idsOf [entry "hello" "hello"]).Nodup ∧
    ∃ inputMap, CreateI18nStringInfoMap [entry "hello" "hello"] = Except.ok inputMap ∧
      ∀ d, verifyLoop specExternals { inputMap := inputMap
                                      targetExtraStringInfos := []
                                      targetInvalidStringInfos := [] }
            [entry "hello" "hola", entry "ghost" "x"] = some d →
        (∀ e ∈ [entry "hello" "hola", entry "ghost" "x"],
          e.ID ∉ idsOf [entry "hello" "hello"] → e ∈ d.targetExtraStringInfos) ∧
        ((idsOf [entry "hello" "hola", entry "ghost" "x"]).Nodup →
          d.targetExtraStringInfos =
              [entry "hello" "hola", entry "ghost" "x"].filter
                (fun e => decide (e.ID ∉ idsOf [entry "hello" "hello"])) ∧
          ∀ e ∈ d.targetExtraStringInfos, e.ID ∉ idsOf [entry "hello" "hello"]) :=
  ⟨by decide,
    verify_extra_exact specExternals [entry "hello" "hello"]
      [entry "hello" "hola", entry "ghost" "x"] (by decide)⟩

/-- Counterexample to C5 as stated: the id `Hi {name}` occurs twice in the
target; its first occurrence, with the unknown argument `nom`, is put in
invalid and its second occurrence in extra, so the id is in both sets. -/
theorem extra_invalid_overlap_counterexample :
    (verifyLoop specExternals
        { inputMap := [("Hi {name}", entry "Hi {name}" "Hi {name}")]
          targetExtraStringInfos := []
          targetInvalidStringInfos := [] }
        [entry "Hi {name}" "Hola {nom}", entry "Hi {name}" "Hola {name}"]).map
      (fun d => (idsOf d.targetExtraStringInfos, idsOf d.targetInvalidStringInfos)) =
      some (["Hi {name}"], ["Hi {name}"]) := by
  decide

/-- C5, amended: for every source map and every target catalog in which no id
occurs more than once, no id is both the id of an entry of extra and the id of
an entry of invalid after the loop of `verify`. -/
theorem verify_extra_invalid_disjoint (X : Externals) (inputMap : InfoMap)
    (target : List I18nStringInfo) (d : Diff)
    (hnd : (idsOf target).Nodup)
    (hd : verifyLoop X { inputMap := inputMap
                         targetExtraStringInfos := []
                         targetInvalidStringInfos := [] } target = some d) :
    ∀ id, ¬ (id ∈ idsOf d.targetExtraStringInfos ∧ id ∈ idsOf d.targetInvalidStringInfos) := by
  rintro id ⟨hex, hinv⟩
  have hE := verifyLoop_extra_of_nodup X target _ d hnd hd
  simp only [List.nil_append] at hE
  obtain ⟨e, he, rfl⟩ := List.mem_map.mp hex
  obtain ⟨i, hi, hid⟩ := List.mem_map.mp hinv
  rw [hE, List.mem_filter] at he
  rcases (verifyLoop_sets X target _ d hd).2.2 i hi with h | ⟨_, hhas, _, _⟩
  · exact absurd h (List.not_mem_nil _)
  · simp only at hhas hid
    rw [hid] at hhas
    have := he.2
    rw [hhas] at this
    exact Bool.noConfusion this

/-- Witness of C5, amended: source `Hi {name}`; target `Hi {name}` with the
unknown argument `nom`, and `ghost`. -/
theorem verify_extra_invalid_disjoint_witness :
    (idsOf [entry "Hi {name}" "Hola {nom}", entry "ghost" "x"]).Nodup ∧
    verifyLoop specExternals
        { inputMap := [("Hi {name}", entry "Hi {name}" "Hi {name}")]
          targetExtraStringInfos := []
          targetInvalidStringInfos := [] }
        [entry "Hi {name}" "Hola {nom}", entry "ghost" "x"] =
      some { inputMap := []
             targetExtraStringInfos := [entry "ghost" "x"]
             targetInvalidStringInfos := [entry "Hi {name}" "Hola {nom}"] } ∧
    ∀ id, ¬ (id ∈ idsOf [entry "ghost" "x"] ∧ id ∈ idsOf [entry "Hi {name}" "Hola {nom}"]) :=
  ⟨by decide, rfl,
    verify_extra_invalid_disjoint specExternals
      [("Hi {name}", entry "Hi {name}" "Hi {name}")]
      [entry "Hi {name}" "Hola {nom}", entry "ghost" "x"]
      { inputMap := []
        targetExtraStringInfos := [entry "ghost" "x"]
        targetInvalidStringInfos := [entry "Hi {name}" "Hola {nom}"] }
      (by decide) rfl⟩

/-- C6 (duplicate key rejection): `CreateI18nStringInfoMap` returns an error
exactly when some id occurs twice in the list; the error names the id of the
first entry that repeats the id of an earlier entry; otherwise the map has the
ids of the list as its keys, as many keys as the list has entries, and maps
every id to its entry. -/
theorem CreateI18nStringInfoMap_duplicate_rejection (infos : List I18nStringInfo) :
    ((∃ e, CreateI18nStringInfoMap infos = Except.error e) ↔ ¬ (idsOf infos).Nodup) ∧
    (∀ e, CreateI18nStringInfoMap infos = Except.error e →
      ∃ pre x post, infos = pre ++ x :: post ∧ (idsOf pre).Nodup ∧ x.ID ∈ idsOf pre ∧
        e = "Duplicated key found: " ++ x.ID) ∧
    (∀ m, CreateI18nStringInfoMap infos = Except.ok m →
      (keysForI18nStringInfoMap m).Perm (idsOf infos) ∧
      (∀ k, m.has k = true ↔ k ∈ idsOf infos) ∧
      (keysForI18nStringInfoMap m).length = infos.length ∧
      (keysForI18nStringInfoMap m).Nodup ∧
      ∀ i ∈ infos, m.find i.ID = some i) := by
  refine ⟨⟨?_, CreateI18nStringInfoMap_of_dup infos⟩, ?_, ?_⟩
  · rintro ⟨e, he⟩ hnd
    rw [CreateI18nStringInfoMap_of_nodup infos hnd] at he
    exact Except.noConfusion he
  · intro e he
    obtain ⟨pre, x, post, hsplit, hnd, _, hdup, hmsg⟩ := createMapFrom_error infos [] e he
    refine ⟨pre, x, post, hsplit, hnd, ?_, hmsg⟩
    rcases hdup with hdup | hdup
    · exact Bool.noConfusion hdup
    · exact hdup
  · intro m hm
    have hnd : (idsOf infos).Nodup := by
      by_contra hdup
      obtain ⟨e, he⟩ := CreateI18nStringInfoMap_of_dup infos hdup
      rw [he] at hm
      exact Except.noConfusion hm
    rw [CreateI18nStringInfoMap_of_nodup infos hnd] at hm
    simp only [Except.ok.injEq] at hm
    subst hm
    have hkeys : keysForI18nStringInfoMap (infos.map (fun i => (i.ID, i))) = idsOf infos := by
      simp [keysForI18nStringInfoMap, idsOf, List.map_map, Function.comp_def]
    refine ⟨by rw [hkeys], ?_, by rw [hkeys]; simp [idsOf], by rw [hkeys]; exact hnd,
      find_of_mem infos hnd⟩
    intro k
    rw [has_iff, hkeys]

/-- C7 (error overriding in `verify`): when source and target load, the source
is not empty and has unique ids, the loop ends and no diff file fails to be
written, `verify` returns nil exactly when extra, invalid and missing are all
empty; with a non-empty missing set it returns the error of the missing ids
whatever the other sets hold, otherwise with a non-empty invalid set the error
of the invalid ids, otherwise with a non-empty extra set the error of the
extra ids. -/
theorem verify_error_overriding (X : Externals) (vs : verifyStrings) (fs : FileSystem)
    (inputFilename targetFilename : String) (source target : List I18nStringInfo)
    (inputMap : InfoMap) (d : Diff)
    (hsrc : fs.load inputFilename = Except.ok source) (hne : source ≠ [])
    (hmap : CreateI18nStringInfoMap source = Except.ok inputMap)
    (htgt : fs.load targetFilename = Except.ok target)
    (hd : verifyLoop X { inputMap := inputMap
                         targetExtraStringInfos := []
                         targetInvalidStringInfos := [] } target = some d)
    (hcheck : ∀ f, ∃ r, X.CheckFile f targetFilename = Except.ok r)
    (hwrite : ∀ p, fs.writeErr p = none) :
    ∃ fs2 err, verify X vs fs inputFilename targetFilename = some (fs2, err) ∧
      (err = none ↔
        d.targetExtraStringInfos = [] ∧ d.targetInvalidStringInfos = [] ∧ d.inputMap = []) ∧
      (d.inputMap ≠ [] → err = some (missingError d.inputMap)) ∧
      (d.inputMap = [] → d.targetInvalidStringInfos ≠ [] →
        err = some (invalidError d.targetInvalidStringInfos)) ∧
      (d.inputMap = [] → d.targetInvalidStringInfos = [] → d.targetExtraStringInfos ≠ [] →
        err = some (extraError d.targetExtraStringInfos)) := by
  obtain ⟨fs2, hrep⟩ := verifyReport_ok X vs fs d targetFilename hcheck hwrite
  refine ⟨fs2,
    (if d.inputMap.length > 0 then some (missingError d.inputMap)
      else if d.targetInvalidStringInfos.length > 0 then
        some (invalidError d.targetInvalidStringInfos)
      else if d.targetExtraStringInfos.length > 0 then
        some (extraError d.targetExtraStringInfos)
      else none), ?_, ?_, ?_, ?_, ?_⟩
  · rw [verify_of_loads X vs fs inputFilename targetFilename source target inputMap
      hsrc hne hmap htgt, hd, Option.map_some', hrep]
  · by_cases h1 : d.inputMap = []
    · by_cases h2 : d.targetInvalidStringInfos = []
      · by_cases h3 : d.targetExtraStringInfos = []
        · simp [h1, h2, h3]
        · simp [h1, h2, h3, List.length_pos]
      · simp [h1, h2, List.length_pos]
    · simp [h1, List.length_pos]
  · intro h1
    simp [h1, List.length_pos]
  · intro h1 h2
    simp [h1, h2, List.length_pos]
  · intro h1 h2 h3
    simp [h1, h2, h3, List.length_pos]

/-- Witness of C7: source `hello`, `bye`, `Hi {name}`; the target lacks `bye`,
adds `ghost` and translates `Hi {name}` with the unknown argument `nom`: all
three sets are non-empty and the error is the one of the missing ids. -/
theorem verify_error_overriding_witness :
    (filesOf [("en.json", [entry "hello" "hello", entry "bye" "bye",
                           entry "Hi {name}" "Hi {name}"]),
              ("es.json", [entry "hello" "hola", entry "ghost" "x",
                           entry "Hi {name}" "Hola {nom}"])]).load "en.json" =
      Except.ok [entry "hello" "hello", entry "bye" "bye", entry "Hi {name}" "Hi {name}"] ∧
    verifyLoop specExternals
        { inputMap := [("hello", entry "hello" "hello"), ("bye", entry "bye" "bye"),
                       ("Hi {name}", entry "Hi {name}" "Hi {name}")]
          targetExtraStringInfos := []
          targetInvalidStringInfos := [] }
        [entry "hello" "hola", entry "ghost" "x", entry "Hi {name}" "Hola {nom}"] =
      some { inputMap := [("bye", entry "bye" "bye")]
             targetExtraStringInfos := [entry "ghost" "x"]
             targetInvalidStringInfos := [entry "Hi {name}" "Hola {nom}"] } ∧
    ∃ fs2 err,
      verify specExternals (verifierOf ["es.json"])
        (filesOf [("en.json", [entry "hello" "hello", entry "bye" "bye",
                               entry "Hi {name}" "Hi {name}"]),
                  ("es.json", [entry "hello" "hola", entry "ghost" "x",
                               entry "Hi {name}" "Hola {nom}"])])
        "en.json" "es.json" = some (fs2, err) ∧
      err = some (missingError [("bye", entry "bye" "bye")]) :=
  ⟨rfl, rfl,
    match verify_error_overriding specExternals (verifierOf ["es.json"])
      (filesOf [("en.json", [entry "hello" "hello", entry "bye" "bye",
                             entry "Hi {name}" "Hi {name}"]),
                ("es.json", [entry "hello" "hola", entry "ghost" "x",
                             entry "Hi {name}" "Hola {nom}"])])
      "en.json" "es.json"
      [entry "hello" "hello", entry "bye" "bye", entry "Hi {name}" "Hi {name}"]
      [entry "hello" "hola", entry "ghost" "x", entry "Hi {name}" "Hola {nom}"]
      [("hello", entry "hello" "hello"), ("bye", entry "bye" "bye"),
       ("Hi {name}", entry "Hi {name}" "Hi {name}")]
      { inputMap := [("bye", entry "bye" "bye")]
        targetExtraStringInfos := [entry "ghost" "x"]
        targetInvalidStringInfos := [entry "Hi {name}" "Hola {nom}"] }
      rfl (by simp) rfl rfl rfl (fun _ => ⟨_, rfl⟩) (fun _ => rfl) with
    | ⟨fs2, err, hv, _, hmiss, _, _⟩ => ⟨fs2, err, hv, hmiss (by simp)⟩⟩

/-- C9 (source-catalog errors are fatal): when the source catalog loads and is
empty or repeats an id, `verify` returns one and the same error for every
target and every content of the other files, and leaves the file system as it
was; `Run` on a non-empty list of targets returns an error and leaves the file
system as it was, so no diff file is written. -/
theorem source_errors_fatal (X : Externals) (vs : verifyStrings)
    (source : List I18nStringInfo)
    (hbad : source = [] ∨ ¬ (idsOf source).Nodup) :
    ∃ e, ∀ fs : FileSystem, fs.load vs.InputFilename = Except.ok source →
      (∀ targetFilename,
        verify X vs fs vs.InputFilename targetFilename = some (fs, some e)) ∧
      (vs.LanguageFilenames ≠ [] ∨ vs.Languages ≠ [] →
        ∃ e2, vs.Run X fs = some (fs, some e2)) := by
  have hverify : ∃ e, ∀ fs : FileSystem, fs.load vs.InputFilename = Except.ok source →
      ∀ targetFilename,
        verify X vs fs vs.InputFilename targetFilename = some (fs, some e) := by
    rcases hbad with hempty | hdup
    · refine ⟨"i18n4go: Error input file: " ++ vs.InputFilename ++ " is empty", ?_⟩
      intro fs hsrc t
      unfold verify LoadI18nStringInfos
      rw [hsrc, hempty]
      rfl
    · obtain ⟨e, he⟩ := CreateI18nStringInfoMap_of_dup source hdup
      refine ⟨"File has duplicated key: " ++ vs.InputFilename ++ "\n" ++ e, ?_⟩
      intro fs hsrc t
      have hlen : (source.length == 0) = false := by
        cases source with
        | nil => exact absurd List.nodup_nil hdup
        | cons a l => rfl
      unfold verify LoadI18nStringInfos
      rw [hsrc]
      simp only [hlen, Bool.false_eq_true, if_false, he]
  obtain ⟨e, hv⟩ := hverify
  refine ⟨e, ?_⟩
  intro fs hsrc
  refine ⟨hv fs hsrc, ?_⟩
  intro htargets
  unfold verifyStrings.Run
  cases hc : X.CheckFile fs vs.InputFilename with
  | error e0 => exact ⟨e0, rfl⟩
  | ok r =>
    obtain ⟨fileName, filePath⟩ := r
    simp only
    rw [runTargets_of_fatal X vs fs e (hv fs hsrc)]
    have hne : determineTargetFilenames X vs fileName filePath ≠ [] := by
      unfold determineTargetFilenames
      by_cases hl : vs.LanguageFilenames = []
      · have hlang : vs.Languages ≠ [] := by
          rcases htargets with h | h
          · exact absurd hl h
          · exact h
        simp [hl, hlang]
      · have : (vs.LanguageFilenames.length != 0) = true := by
          simp [hl]
        rw [if_pos this]
        exact hl
    rw [if_neg hne]
    exact ⟨e, rfl⟩

/-- Witness of C9: an empty source catalog `en.json` and the target
`es.json`. -/
theorem source_errors_fatal_witness :
    ∃ e,
      (∀ targetFilename,
        verify specExternals (verifierOf ["es.json"])
          (filesOf [("en.json", []), ("es.json", [entry "hello" "hola"])])
          "en.json" targetFilename =
          some (filesOf [("en.json", []), ("es.json", [entry "hello" "hola"])], some e)) ∧
      ∃ e2, (verifierOf ["es.json"]).Run specExternals
          (filesOf [("en.json", []), ("es.json", [entry "hello" "hola"])]) =
        some (filesOf [("en.json", []), ("es.json", [entry "hello" "hola"])], some e2) :=
  match source_errors_fatal specExternals (verifierOf ["es.json"]) [] (Or.inl rfl) with
  | ⟨e, h⟩ =>
    ⟨e, (h (filesOf [("en.json", []), ("es.json", [entry "hello" "hola"])]) rfl).1,
      (h (filesOf [("en.json", []), ("es.json", [entry "hello" "hola"])]) rfl).2
        (Or.inl (by decide))⟩

/-- C8, the code at the failing input: the first target `es.json` has the
extra id `ghost` and `verify` returns an error for it, the second target
`fr.json` verifies cleanly, and `Run` returns nil. -/
theorem Run_drops_earlier_error :
    (verify specExternals (verifierOf ["es.json", "fr.json"])
        (filesOf [("en.json", [entry "hello" "hello"]),
                  ("es.json", [entry "hello" "hola", entry "ghost" "x"]),
                  ("fr.json", [entry "hello" "bonjour"])])
        "en.json" "es.json").map Prod.snd =
      some (some "i18n4go: target file has extra i18n strings with IDs: ghost") ∧
    ((verifierOf ["es.json", "fr.json"]).Run specExternals
        (filesOf [("en.json", [entry "hello" "hello"]),
                  ("es.json", [entry "hello" "hola", entry "ghost" "x"]),
                  ("fr.json", [entry "hello" "bonjour"])])).map Prod.snd =
      some none := by
  decide

/-- C10, the code at the failing input: the shard of the root directory and
the shard of its subdirectory both hold the id `OK`; with the recursion flag
set, the catalog written for the subdirectory holds the id twice, so it is not
in strictly ascending order of id. -/
theorem Run_recursive_catalog_not_strictly_ascending :
    ((NewMergeStrings (plainOptions true)).Run specExternals (filesOf [])
        (DirEntry.dir "root"
          [DirEntry.file "a.go.en.json" (Except.ok [entry "OK" "OK"]),
           DirEntry.dir "sub"
             [DirEntry.file "b.go.en.json" (Except.ok [entry "OK" "OK"])]])).2.1.written.map
      (fun w => (w.1, idsOf w.2)) =
      [("root/en.all.json", ["OK"]), ("root/sub/en.all.json", ["OK", "OK"])] ∧
    ¬ ∀ w ∈ ((NewMergeStrings (plainOptions true)).Run specExternals (filesOf [])
        (DirEntry.dir "root"
          [DirEntry.file "a.go.en.json" (Except.ok [entry "OK" "OK"]),
           DirEntry.dir "sub"
             [DirEntry.file "b.go.en.json" (Except.ok [entry "OK" "OK"])]])).2.1.written,
        List.Pairwise (fun a b => Less a b = true) w.2 := by
  decide

/-- C11 (merge dedup invariant): a non-recursive `Run` of a fresh
`MergeStrings` on a directory whose selected shards all load returns no error,
and the catalog it saves holds exactly one entry for every id that occurs in a
selected shard, each entry taken from a shard, and no other id.  The same
holds for every order of the stores into the map and of the range over it. -/
theorem merge_dedup (X : Externals) (options : Options) (fs : FileSystem) (name : String)
    (contents : List DirEntry)
    (hrec : options.RecurseFlag = false)
    (hload : ∀ f ∈ matchFileToSourceLanguage
        (getFilesAndDir X options.DirnameFlag contents).1 options.SourceLanguageFlag,
      ∃ infos, f.2 = Except.ok infos) :
    (∃ ms2 fs2,
      (NewMergeStrings options).Run X fs (DirEntry.dir name contents) = (ms2, fs2, none) ∧
      fs2 = (SaveI18nStringInfos options fs ms2.I18nStringInfos
        (X.Join options.DirnameFlag (options.SourceLanguageFlag ++ ".all.json"))).1 ∧
      (idsOf ms2.I18nStringInfos).Nodup ∧
      (∀ id, id ∈ idsOf ms2.I18nStringInfos ↔
        id ∈ idsOf (shardEntries (matchFileToSourceLanguage
          (getFilesAndDir X options.DirnameFlag contents).1 options.SourceLanguageFlag))) ∧
      (∀ e ∈ ms2.I18nStringInfos,
        e ∈ shardEntries (matchFileToSourceLanguage
          (getFilesAndDir X options.DirnameFlag contents).1 options.SourceLanguageFlag))) ∧
    (∀ schedule range : List I18nStringInfo,
      schedule.Perm (shardEntries (matchFileToSourceLanguage
        (getFilesAndDir X options.DirnameFlag contents).1 options.SourceLanguageFlag)) →
      range.Perm ((storeAll [] schedule).map Prod.snd) →
      (idsOf (sortByID range)).Nodup ∧
      ∀ id, id ∈ idsOf (sortByID range) ↔
        id ∈ idsOf (shardEntries (matchFileToSourceLanguage
          (getFilesAndDir X options.DirnameFlag contents).1 options.SourceLanguageFlag))) := by
  constructor
  · obtain ⟨ms2, fs2, hc, hcat, hrec2, hfs⟩ :=
      combineFiles_fresh X (NewMergeStrings options) fs options.DirnameFlag contents rfl hload
    have hrecf : ms2.Recurse = false := by rw [hrec2]; exact hrec
    refine ⟨ms2, fs2, ?_, hfs, ?_⟩
    · unfold MergeStrings.Run
      unfold combineStringInfosPerDirectory
      have hdir : (NewMergeStrings options).Directory = options.DirnameFlag := rfl
      rw [hdir, hc]
      simp [hrecf]
    · obtain ⟨_, h2, h3, h4⟩ := sorted_range_strict _ _ _ ms2.I18nStringInfos
        (List.Perm.refl _) (List.Perm.refl _)
        (by rw [hcat]; exact sortByID_perm _) (by rw [hcat]; exact sortByID_sorted _)
      exact ⟨h2, h3, h4⟩
  · intro schedule range hs hr
    obtain ⟨_, h2, h3, _⟩ := sorted_range_strict _ schedule range (sortByID range)
      hs hr (sortByID_perm _) (sortByID_sorted _)
    exact ⟨h2, h3⟩

/-- Witness of C11: two shards that share the id `OK`, and a file that is not
a shard. -/
theorem merge_dedup_witness :
    ((NewMergeStrings (plainOptions false)).Run specExternals (filesOf [])
        (DirEntry.dir "root"
          [DirEntry.file "a.go.en.json" (Except.ok [entry "OK" "OK", entry "No" "No"]),
           DirEntry.file "README.md" (Except.error "invalid character"),
           DirEntry.file "b.go.en.json" (Except.ok [entry "Yes" "Yes", entry "OK" "OK"])])
      ).2.1.written.map (fun w => (w.1, idsOf w.2)) =
      [("root/en.all.json", ["No", "OK", "Yes"])] ∧
    ∃ ms2 fs2,
      (NewMergeStrings (plainOptions false)).Run specExternals (filesOf [])
        (DirEntry.dir "root"
          [DirEntry.file "a.go.en.json" (Except.ok [entry "OK" "OK", entry "No" "No"]),
           DirEntry.file "README.md" (Except.error "invalid character"),
           DirEntry.file "b.go.en.json" (Except.ok [entry "Yes" "Yes", entry "OK" "OK"])]) =
        (ms2, fs2, none) ∧
      (idsOf ms2.I18nStringInfos).Nodup :=
  ⟨by decide,
    match (merge_dedup specExternals (plainOptions false) (filesOf []) "root"
      [DirEntry.file "a.go.en.json" (Except.ok [entry "OK" "OK", entry "No" "No"]),
       DirEntry.file "README.md" (Except.error "invalid character"),
       DirEntry.file "b.go.en.json" (Except.ok [entry "Yes" "Yes", entry "OK" "OK"])]
      rfl
      (fun f hf => by
        have hsel : matchFileToSourceLanguage
            (getFilesAndDir specExternals (plainOptions false).DirnameFlag
              [DirEntry.file "a.go.en.json" (Except.ok [entry "OK" "OK", entry "No" "No"]),
               DirEntry.file "README.md" (Except.error "invalid character"),
               DirEntry.file "b.go.en.json"
                 (Except.ok [entry "Yes" "Yes", entry "OK" "OK"])]).1
            (plainOptions false).SourceLanguageFlag =
            [("root/a.go.en.json", Except.ok [entry "OK" "OK", entry "No" "No"]),
             ("root/b.go.en.json", Except.ok [entry "Yes" "Yes", entry "OK" "OK"])] := rfl
        rw [hsel] at hf
        rcases List.mem_cons.mp hf with rfl | hf
        · exact ⟨_, rfl⟩
        · rcases List.mem_cons.mp hf with rfl | hf
          · exact ⟨_, rfl⟩
          · exact absurd hf (List.not_mem_nil _))).1 with
    | ⟨ms2, fs2, hrun, _, hnd, _, _⟩ => ⟨ms2, fs2, hrun, hnd⟩⟩

/-- C12 (merge idempotence and order independence): when entries with the same
id are identical, every two sorted outputs of the same shard entries are the
same list, whatever the orders of the stores into the map and of the range
over it; and two fresh merges of listings whose selected shards hold the same
entries, enumerated in any two orders, leave the same catalog. -/
theorem merge_order_independent (entries : List I18nStringInfo)
    (hsame : ∀ a ∈ entries, ∀ b ∈ entries, a.ID = b.ID → a = b) :
    (∀ schedule1 schedule2 range1 range2 out1 out2 : List I18nStringInfo,
      schedule1.Perm entries → schedule2.Perm entries →
      range1.Perm ((storeAll [] schedule1).map Prod.snd) →
      range2.Perm ((storeAll [] schedule2).map Prod.snd) →
      out1.Perm range1 → out2.Perm range2 →
      out1.Pairwise (fun a b => Less b a = false) →
      out2.Pairwise (fun a b => Less b a = false) →
      out1 = out2 ∧ sortByID range1 = out1) ∧
    (∀ (X : Externals) (ms1 ms2 : MergeStrings) (fs1 fs2 : FileSystem)
      (directory1 directory2 : String) (contents1 contents2 : List DirEntry),
      ms1.I18nStringInfos = [] → ms2.I18nStringInfos = [] →
      (shardEntries (matchFileToSourceLanguage
        (getFilesAndDir X directory1 contents1).1 ms1.SourceLanguage)).Perm entries →
      (shardEntries (matchFileToSourceLanguage
        (getFilesAndDir X directory2 contents2).1 ms2.SourceLanguage)).Perm entries →
      (∀ f ∈ matchFileToSourceLanguage (getFilesAndDir X directory1 contents1).1
        ms1.SourceLanguage, ∃ infos, f.2 = Except.ok infos) →
      (∀ f ∈ matchFileToSourceLanguage (getFilesAndDir X directory2 contents2).1
        ms2.SourceLanguage, ∃ infos, f.2 = Except.ok infos) →
      ∃ r1 r2 f1 f2,
        combineFiles X ms1 fs1 directory1 contents1 = Except.ok (r1, f1) ∧
        combineFiles X ms2 fs2 directory2 contents2 = Except.ok (r2, f2) ∧
        r1.I18nStringInfos = r2.I18nStringInfos) := by
  constructor
  · intro schedule1 schedule2 range1 range2 out1 out2 h1 h2 r1 r2 o1 o2 s1 s2
    refine ⟨sorted_outputs_eq entries schedule1 schedule2 range1 range2 out1 out2
      hsame h1 h2 r1 r2 o1 o2 s1 s2, ?_⟩
    exact sorted_outputs_eq entries schedule1 schedule1 range1 range1 (sortByID range1) out1
      hsame h1 h1 r1 r1 (sortByID_perm _) o1 (sortByID_sorted _) s1
  · intro X ms1 ms2 fs1 fs2 directory1 directory2 contents1 contents2 e1 e2 p1 p2 l1 l2
    obtain ⟨r1, f1, hc1, hcat1, _, _⟩ :=
      combineFiles_fresh X ms1 fs1 directory1 contents1 e1 l1
    obtain ⟨r2, f2, hc2, hcat2, _, _⟩ :=
      combineFiles_fresh X ms2 fs2 directory2 contents2 e2 l2
    refine ⟨r1, r2, f1, f2, hc1, hc2, ?_⟩
    rw [hcat1, hcat2]
    exact sorted_outputs_eq entries _ _ _ _ _ _ hsame p1 p2 (List.Perm.refl _)
      (List.Perm.refl _) (sortByID_perm _) (sortByID_perm _) (sortByID_sorted _)
      (sortByID_sorted _)

/-- Witness of C12: the entries `b`, `a`, `b`, stored in two different orders
and ranged over in two different orders, give the catalog `a`, `b`. -/
theorem merge_order_independent_witness :
    (∀ a ∈ [entry "b" "B", entry "a" "A", entry "b" "B"],
      ∀ b ∈ [entry "b" "B", entry "a" "A", entry "b" "B"], a.ID = b.ID → a = b) ∧
    [entry "a" "A", entry "b" "B"] = [entry "a" "A", entry "b" "B"] ∧
    sortByID [entry "b" "B", entry "a" "A"] = [entry "a" "A", entry "b" "B"] :=
  have hsame : ∀ a ∈ [entry "b" "B", entry "a" "A", entry "b" "B"],
      ∀ b ∈ [entry "b" "B", entry "a" "A", entry "b" "B"], a.ID = b.ID → a = b := by
    intro a ha b hb h
    simp only [List.mem_cons, List.mem_singleton, List.not_mem_nil, or_false] at ha hb
    rcases ha with rfl | rfl | rfl <;> rcases hb with rfl | rfl | rfl <;>
      first
        | rfl
        | exact absurd h (by decide)
  ⟨hsame,
    (merge_order_independent [entry "b" "B", entry "a" "A", entry "b" "B"] hsame).1
      [entry "b" "B", entry "a" "A", entry "b" "B"]
      [entry "a" "A", entry "b" "B", entry "b" "B"]
      [entry "b" "B", entry "a" "A"] [entry "a" "A", entry "b" "B"]
      [entry "a" "A", entry "b" "B"] [entry "a" "A", entry "b" "B"]
      (List.Perm.refl _)
      (List.Perm.swap _ _ _)
      (List.Perm.refl _) (List.Perm.refl _)
      (List.Perm.swap _ _ _) (List.Perm.refl _)
      (by decide) (by decide)⟩

/-- C13 (save writes only non-empty catalogs outside dry-run): with the
dry-run flag on or an empty catalog `SaveI18nStringInfos` returns nil and
leaves the file system as it was; with the flag off and a non-empty catalog it
writes the file: the catalog is recorded at the path and no other path
changes, or the error of the failed write is returned. -/
theorem SaveI18nStringInfos_writes_iff (options : Options) (fs : FileSystem)
    (infos : List I18nStringInfo) (fileName : String) :
    (options.DryRunFlag = true ∨ infos = [] →
      SaveI18nStringInfos options fs infos fileName = (fs, none)) ∧
    (options.DryRunFlag = false → infos ≠ [] →
      (fs.writeErr fileName = none →
        ∃ fs2, SaveI18nStringInfos options fs infos fileName = (fs2, none) ∧
          fs2.written = fs.written ++ [(fileName, infos)] ∧
          fs2.load fileName = Except.ok infos ∧
          ∀ p, p ≠ fileName → fs2.load p = fs.load p) ∧
      (∀ e, fs.writeErr fileName = some e →
        SaveI18nStringInfos options fs infos fileName = (fs, some e))) := by
  constructor
  · rintro (hdry | hempty)
    · simp [SaveI18nStringInfos, hdry]
    · simp [SaveI18nStringInfos, hempty]
  · intro hdry hne
    have hlen : (infos.length != 0) = true := by
      cases infos with
      | nil => exact absurd rfl hne
      | cons a l => rfl
    constructor
    · intro hw
      refine ⟨{ load := fun p => if p = fileName then Except.ok infos else fs.load p
                writeErr := fs.writeErr
                written := fs.written ++ [(fileName, infos)] }, ?_, rfl, ?_, ?_⟩
      · simp [SaveI18nStringInfos, hdry, hlen, FileSystem.writeFile, hw]
      · simp
      · intro p hp
        simp [hp]
    · intro e hw
      simp [SaveI18nStringInfos, hdry, hlen, FileSystem.writeFile, hw]

/-- C17 (an id that is not templated is never flagged): for an entry whose id
is not templated, whatever its translation is, the placeholder check returns
false without a panic, a turn of the loop of `verify` leaves the invalid set
as it was, and the entry is in the invalid set after the loop only if it was
in it before. -/
theorem untemplated_id_never_invalid (X : Externals) (stringInfo : I18nStringInfo)
    (hid : X.IsTemplatedString stringInfo.ID = false) :
    isTemplatedStringTranslationInvalid X stringInfo = some false ∧
    (∀ d : Diff, ∃ d2, verifyStep X d stringInfo = some d2 ∧
      d2.targetInvalidStringInfos = d.targetInvalidStringInfos) ∧
    (∀ (d d2 : Diff) (target : List I18nStringInfo), verifyLoop X d target = some d2 →
      stringInfo ∈ d2.targetInvalidStringInfos → stringInfo ∈ d.targetInvalidStringInfos) := by
  have hfalse : isTemplatedStringTranslationInvalid X stringInfo = some false := by
    simp [isTemplatedStringTranslationInvalid, hid]
  refine ⟨hfalse, ?_, ?_⟩
  · intro d
    unfold verifyStep
    by_cases hh : d.inputMap.has stringInfo.ID = true
    · simp [hh, hid]
    · simp [hh]
  · intro d d2 target hloop hmem
    rcases (verifyLoop_sets X target d d2 hloop).2.2 stringInfo hmem with h | ⟨_, _, h, _⟩
    · exact h
    · rw [hid] at h
      exact Bool.noConfusion h

/-- Witness of C17: the id `hello` with a number as translation. -/
theorem untemplated_id_never_invalid_witness :
    specExternals.IsTemplatedString "hello" = false ∧
    isTemplatedStringTranslationInvalid specExternals
      { ID := "hello", Translation := Json.number "3", Modified := false } = some false :=
  ⟨by decide,
    (untemplated_id_never_invalid specExternals
      { ID := "hello", Translation := Json.number "3", Modified := false } (by decide)).1⟩

/-- C18, the code at the failing input: the root directory holds a shard with
the id `hello`, its subdirectory `sub` a shard with the id `bye`, and its
subdirectory `void` no shard; with the recursion flag set, the catalog
written for `sub` also holds `hello`, which occurs in the shard of the root
only, and a catalog is written for `void`, with the entries of the
directories merged before it. -/
theorem Run_recursive_catalog_holds_parent_entries :
    ((NewMergeStrings (plainOptions true)).Run specExternals (filesOf [])
        (DirEntry.dir "root"
          [DirEntry.file "a.go.en.json" (Except.ok [entry "hello" "hello"]),
           DirEntry.dir "sub"
             [DirEntry.file "b.go.en.json" (Except.ok [entry "bye" "bye"])],
           DirEntry.dir "void" []])).2.1.written.map
      (fun w => (w.1, idsOf w.2)) =
      [("root/en.all.json", ["hello"]),
       ("root/sub/en.all.json", ["bye", "hello"]),
       ("root/void/en.all.json", ["bye", "hello"])] ∧
    "hello" ∉ idsOf (shardEntries (matchFileToSourceLanguage
      (getFilesAndDir specExternals "root/sub"
        [DirEntry.file "b.go.en.json" (Except.ok [entry "bye" "bye"])]).1 "en")) ∧
    shardEntries (matchFileToSourceLanguage
      (getFilesAndDir specExternals "root/void" []).1 "en") = [] :=
  ⟨by decide, by decide, rfl⟩

/-- Counterexample to C19 as stated: the id `Hi {name}` with the plural mapping
`one: Hola`, `other: Hola {nom}`.  The value `Hola {nom}` is templated and has
the excess argument `nom`; when the range over the mapping visits `one` first
the check returns false, when it visits `other` first it returns true. -/
theorem plural_violation_depends_on_order :
    specIsTemplatedString "Hi {name}" = true ∧
    specIsTemplatedString "Hola {nom}" = true ∧
    "nom" ∈ specGetTemplatedStringArgs "Hola {nom}" ∧
    "nom" ∉ specGetTemplatedStringArgs "Hi {name}" ∧
    isTemplatedStringTranslationInvalid specExternals
      { ID := "Hi {name}"
        Translation := Json.obj [("one", Json.str "Hola"), ("other", Json.str "Hola {nom}")]
        Modified := false } = some false ∧
    isTemplatedStringTranslationInvalid specExternals
      { ID := "Hi {name}"
        Translation := Json.obj [("other", Json.str "Hola {nom}"), ("one", Json.str "Hola")]
        Modified := false } = some true := by
  decide

/-- C20 (a recursive merge aborts a branch on the first failure): when the
subdirectories before `name` are merged without error and the merge of `name`
returns an error, the loop over the subdirectories returns that error in the
state the failing merge left, whatever subdirectories come after it; the call
on the parent directory returns the same error; and when a selected shard of
`name` itself fails to load, nothing is merged or written for `name`. -/
theorem recursive_merge_aborts (X : Externals) (parent name : String)
    (pre contents post : List DirEntry) (ms ms1 ms2 : MergeStrings)
    (fs fs1 fs2 : FileSystem) (e : String)
    (hpre : combineSubdirectories X ms fs parent pre = (ms1, fs1, none))
    (hfail : combineStringInfosPerDirectory X ms1 fs1 (X.Join parent name)
      (DirEntry.dir name contents) = (ms2, fs2, some e)) :
    combineSubdirectories X ms fs parent (pre ++ DirEntry.dir name contents :: post) =
      (ms2, fs2, some e) ∧
    (∀ (ms0 : MergeStrings) (fs0 : FileSystem) (parentName : String),
      combineFiles X ms0 fs0 parent (pre ++ DirEntry.dir name contents :: post) =
        Except.ok (ms, fs) →
      ms.Recurse = true →
      combineStringInfosPerDirectory X ms0 fs0 parent
        (DirEntry.dir parentName (pre ++ DirEntry.dir name contents :: post)) =
        (ms2, fs2, some e)) ∧
    ((∃ f ∈ matchFileToSourceLanguage (getFilesAndDir X (X.Join parent name) contents).1
        ms1.SourceLanguage, ∃ msg, f.2 = Except.error msg) →
      ms2.I18nStringInfos = ms1.I18nStringInfos ∧ fs2.written = fs1.written ∧
        fs2.load = fs1.load) := by
  have hloop := combineSubdirectories_stops X parent name contents post ms1 ms2 fs1 fs2 e
    hfail pre ms fs hpre
  refine ⟨hloop, ?_, ?_⟩
  · intro ms0 fs0 parentName hfiles hrec
    rw [combineStringInfosPerDirectory_dir, hfiles]
    simp only [hrec, if_true]
    exact hloop
  · intro hbad
    obtain ⟨e2, he2⟩ := loadShards_error _ hbad []
    have hfiles : combineFiles X ms1 fs1 (X.Join parent name) contents = Except.error e2 := by
      unfold combineFiles
      simp only [he2]
    rw [combineStringInfosPerDirectory_dir, hfiles] at hfail
    simp only [Prod.mk.injEq] at hfail
    obtain ⟨h1, h2, _⟩ := hfail
    rw [← h1, ← h2]
    exact ⟨rfl, rfl, rfl⟩

/-- Witness of C20: the subdirectories `good`, `bad` and `late` of `root`; the
shard of `bad` fails to load, so only the catalog of `good` is written. -/
theorem recursive_merge_aborts_witness :
    ((NewMergeStrings (plainOptions true)).Run specExternals (filesOf [])
        (DirEntry.dir "root"
          [DirEntry.dir "good"
             [DirEntry.file "a.go.en.json" (Except.ok [entry "hello" "hello"])],
           DirEntry.dir "bad"
             [DirEntry.file "b.go.en.json" (Except.error "unexpected end of JSON input")],
           DirEntry.dir "late"
             [DirEntry.file "c.go.en.json" (Except.ok [entry "bye" "bye"])]])).2.2 =
      some "err retrieving file root/bad/b.go.en.json: unexpected end of JSON input" ∧
    ((NewMergeStrings (plainOptions true)).Run specExternals (filesOf [])
        (DirEntry.dir "root"
          [DirEntry.dir "good"
             [DirEntry.file "a.go.en.json" (Except.ok [entry "hello" "hello"])],
           DirEntry.dir "bad"
             [DirEntry.file "b.go.en.json" (Except.error "unexpected end of JSON input")],
           DirEntry.dir "late"
             [DirEntry.file "c.go.en.json" (Except.ok [entry "bye" "bye"])]])).2.1.written.map
      (fun w => (w.1, idsOf w.2)) = [("root/good/en.all.json", ["hello"])] ∧
    combineSubdirectories specExternals (NewMergeStrings (plainOptions true)) (filesOf [])
        "root"
        ([DirEntry.dir "good"
            [DirEntry.file "a.go.en.json" (Except.ok [entry "hello" "hello"])]] ++
          DirEntry.dir "bad"
            [DirEntry.file "b.go.en.json" (Except.error "unexpected end of JSON input")] ::
          [DirEntry.dir "late"
            [DirEntry.file "c.go.en.json" (Except.ok [entry "bye" "bye"])]]) =
      ((combineSubdirectories specExternals (NewMergeStrings (plainOptions true))
          (filesOf []) "root"
          [DirEntry.dir "good"
            [DirEntry.file "a.go.en.json" (Except.ok [entry "hello" "hello"])]]).1,
        (combineSubdirectories specExternals (NewMergeStrings (plainOptions true))
          (filesOf []) "root"
          [DirEntry.dir "good"
            [DirEntry.file "a.go.en.json" (Except.ok [entry "hello" "hello"])]]).2.1,
        some "err retrieving file root/bad/b.go.en.json: unexpected end of JSON input") :=
  ⟨by decide, by decide,
    (recursive_merge_aborts specExternals "root" "bad"
      [DirEntry.dir "good"
        [DirEntry.file "a.go.en.json" (Except.ok [entry "hello" "hello"])]]
      [DirEntry.file "b.go.en.json" (Except.error "unexpected end of JSON input")]
      [DirEntry.dir "late"
        [DirEntry.file "c.go.en.json" (Except.ok [entry "bye" "bye"])]]
      (NewMergeStrings (plainOptions true)) _ _ (filesOf []) _ _ _ rfl rfl).1⟩

/-- Counterexample to C16 as stated: in the directory `x.go.en.json.d` the
file `notes.txt` is selected for the language `en`, although its name does not
contain `go.en.json`: the test is made on the joined path. -/
theorem selection_by_directory_counterexample :
    (matchFileToSourceLanguage
        (getFilesAndDir specExternals "x.go.en.json.d"
          [DirEntry.file "notes.txt" (Except.error "invalid character")]).1 "en").map
      Prod.fst = ["x.go.en.json.d/notes.txt"] ∧
    stringsContains "notes.txt" ("go." ++ "en" ++ ".json") = false := by
  decide

/-- C16, amended: a file of the listing is selected for the merge exactly when
its path joined with the directory contains `go.` followed by the language and
`.json`, and the selected files keep the order of the listing. -/
theorem shard_selection (X : Externals) (dir lang : String) (contents : List DirEntry) :
    matchFileToSourceLanguage (getFilesAndDir X dir contents).1 lang =
      (contents.filterMap (fun e =>
          match e with
          | DirEntry.file name content => some (X.Join dir name, content)
          | DirEntry.dir _ _ => none)).filter
        (fun file => decide (("go." ++ lang ++ ".json").data <:+: file.1.data)) := by
  rw [getFilesAndDir_files]
  unfold matchFileToSourceLanguage
  apply List.filter_congr
  intro file _
  rw [Bool.eq_iff_iff, stringsContains_iff]
  simp

/-- C15 (diff artifacts accompany every inconsistency): for a call of `verify`
with the dry-run flag off in which source and target load, the loop ends and
no write fails, the files written are, in this order, the extra, invalid and
missing diff files of the target, each holding exactly the entries of its set
and each written exactly when its set is not empty; and the set named by the
returned error has its diff file among the files written. -/
theorem verify_diff_artifacts (X : Externals) (vs : verifyStrings) (fs : FileSystem)
    (inputFilename targetFilename name pathName : String)
    (source target : List I18nStringInfo) (inputMap : InfoMap) (d : Diff)
    (hdry : vs.options.DryRunFlag = false)
    (hsrc : fs.load inputFilename = Except.ok source) (hne : source ≠ [])
    (hmap : CreateI18nStringInfoMap source = Except.ok inputMap)
    (htgt : fs.load targetFilename = Except.ok target)
    (hd : verifyLoop X { inputMap := inputMap
                         targetExtraStringInfos := []
                         targetInvalidStringInfos := [] } target = some d)
    (hcheck : ∀ f, X.CheckFile f targetFilename = Except.ok (name, pathName))
    (hwrite : ∀ p, fs.writeErr p = none) :
    ∃ fs2 err, verify X vs fs inputFilename targetFilename = some (fs2, err) ∧
      fs2.written = fs.written ++
        artifactOf (diffFilenameOf X vs name pathName ".extra.diff.json")
          d.targetExtraStringInfos ++
        artifactOf (diffFilenameOf X vs name pathName ".invalid.diff.json")
          d.targetInvalidStringInfos ++
        artifactOf (diffFilenameOf X vs name pathName ".missing.diff.json")
          (valuesForI18nStringInfoMap d.inputMap) ∧
      (d.inputMap ≠ [] →
        err = some (missingError d.inputMap) ∧
        (diffFilenameOf X vs name pathName ".missing.diff.json",
          valuesForI18nStringInfoMap d.inputMap) ∈ fs2.written) ∧
      (d.inputMap = [] → d.targetInvalidStringInfos ≠ [] →
        err = some (invalidError d.targetInvalidStringInfos) ∧
        (diffFilenameOf X vs name pathName ".invalid.diff.json",
          d.targetInvalidStringInfos) ∈ fs2.written) ∧
      (d.inputMap = [] → d.targetInvalidStringInfos = [] → d.targetExtraStringInfos ≠ [] →
        err = some (extraError d.targetExtraStringInfos) ∧
        (diffFilenameOf X vs name pathName ".extra.diff.json",
          d.targetExtraStringInfos) ∈ fs2.written) ∧
      (d.inputMap = [] → d.targetInvalidStringInfos = [] → d.targetExtraStringInfos = [] →
        err = none ∧ fs2.written = fs.written) := by
  obtain ⟨fs2, hrep, hwritten⟩ :=
    verifyReport_written X vs fs d targetFilename name pathName hdry hcheck hwrite
  have hart : ∀ (path : String) (infos : List I18nStringInfo), infos ≠ [] →
      artifactOf path infos = [(path, infos)] := by
    intro path infos h
    cases infos with
    | nil => exact absurd rfl h
    | cons a l => rfl
  refine ⟨fs2,
    (if d.inputMap.length > 0 then some (missingError d.inputMap)
      else if d.targetInvalidStringInfos.length > 0 then
        some (invalidError d.targetInvalidStringInfos)
      else if d.targetExtraStringInfos.length > 0 then
        some (extraError d.targetExtraStringInfos)
      else none), ?_, hwritten, ?_, ?_, ?_, ?_⟩
  · rw [verify_of_loads X vs fs inputFilename targetFilename source target inputMap
      hsrc hne hmap htgt, hd, Option.map_some', hrep]
  · intro h1
    have hv : valuesForI18nStringInfoMap d.inputMap ≠ [] := by
      simpa [valuesForI18nStringInfoMap] using h1
    refine ⟨by simp [h1, List.length_pos], ?_⟩
    rw [hwritten, hart _ _ hv]
    simp
  · intro h1 h2
    refine ⟨by simp [h1, h2, List.length_pos], ?_⟩
    rw [hwritten, hart _ _ h2]
    simp
  · intro h1 h2 h3
    refine ⟨by simp [h1, h2, h3, List.length_pos], ?_⟩
    rw [hwritten, hart _ _ h3]
    simp
  · intro h1 h2 h3
    refine ⟨by simp [h1, h2, h3], ?_⟩
    rw [hwritten, h1, h2, h3]
    simp [artifactOf, valuesForI18nStringInfoMap]

/-- Witness of C15: source `hello`, `bye`; the target lacks `bye` and adds
`ghost`: the extra and the missing diff files are written, in this order. -/
theorem verify_diff_artifacts_witness :
    (verifierOf ["es.json"]).options.DryRunFlag = false ∧
    ∃ fs2 err,
      verify specExternals (verifierOf ["es.json"])
        (filesOf [("en.json", [entry "hello" "hello", entry "bye" "bye"]),
                  ("es.json", [entry "hello" "hola", entry "ghost" "x"])])
        "en.json" "es.json" = some (fs2, err) ∧
      fs2.written =
        [("./es.json.extra.diff.json", [entry "ghost" "x"]),
         ("./es.json.missing.diff.json", [entry "bye" "bye"])] :=
  ⟨rfl,
    match verify_diff_artifacts specExternals (verifierOf ["es.json"])
      (filesOf [("en.json", [entry "hello" "hello", entry "bye" "bye"]),
                ("es.json", [entry "hello" "hola", entry "ghost" "x"])])
      "en.json" "es.json" "es.json" "."
      [entry "hello" "hello", entry "bye" "bye"]
      [entry "hello" "hola", entry "ghost" "x"]
      [("hello", entry "hello" "hello"), ("bye", entry "bye" "bye")]
      { inputMap := [("bye", entry "bye" "bye")]
        targetExtraStringInfos := [entry "ghost" "x"]
        targetInvalidStringInfos := [] }
      rfl rfl (by simp) rfl rfl rfl (fun _ => rfl) (fun _ => rfl) with
    | ⟨fs2, err, hv, hw, _⟩ => ⟨fs2, err, hv, hw⟩⟩

/-- Counterexample to C14 as stated: the bytes of the catalog with the one
entry `a` are indented with three spaces for every nesting level, not with
two. -/
theorem catalog_indent_counterexample :
    jsonData specEncoder [entry "a" "b"] =
      "[\n   \x7b\n      \"id\": \"a\",\n      \"translation\": \"b\",\n      \"modified\": false\n   \x7d\n]" ∧
    jsonData specEncoder [entry "a" "b"] ≠
      "[\n  \x7b\n    \"id\": \"a\",\n    \"translation\": \"b\",\n    \"modified\": false\n  \x7d\n]" := by
  decide

/-- C14, amended: for every non-empty catalog the bytes `SaveI18nStringInfos`
builds are a JSON array, without a prefix before its lines, indented with
exactly three spaces for every nesting level: every entry opens and closes on
a line indented by three spaces, and its fields `id`, `translation` and
`modified` are on lines indented by six spaces. -/
theorem catalog_indented_three (E : Encoder) (infos : List I18nStringInfo)
    (hne : infos ≠ []) :
    jsonData E infos =
      E.UnescapeHTML
        ("[" ++
          joinWith ","
            (infos.map (fun info =>
              "\n   " ++
                ("\x7b" ++ "\n      " ++
                  "\"id\": " ++ E.Quote info.ID ++ "," ++ "\n      " ++
                  "\"translation\": " ++ marshalValue E "" "   " 2 info.Translation ++ "," ++
                  "\n      " ++
                  "\"modified\": " ++ (if info.Modified then "true" else "false") ++
                  "\n   " ++ "\x7d"))) ++
          "\n" ++ "]") := by
  cases infos with
  | nil => exact absurd rfl hne
  | cons a l =>
    unfold jsonData MarshalIndent
    simp only
    have h1 : lineBreak "" "   " 1 = "\n   " := by decide
    have h2 : lineBreak "" "   " 2 = "\n      " := by decide
    have h0 : lineBreak "" "   " 0 = "\n" := by decide
    have hinfo : marshalInfo E "" "   " 1 = fun info =>
        "\x7b" ++ "\n      " ++
          "\"id\": " ++ E.Quote info.ID ++ "," ++ "\n      " ++
          "\"translation\": " ++ marshalValue E "" "   " 2 info.Translation ++ "," ++
          "\n      " ++
          "\"modified\": " ++ (if info.Modified then "true" else "false") ++
          "\n   " ++ "\x7d" := by
      funext info
      unfold marshalInfo
      rw [h1, h2]
    rw [h0, h1, hinfo, String.append_assoc "[", joinWith_lineBreak]

/-- Witness of C14, amended: the catalog with the one entry `a`. -/
theorem catalog_indented_three_witness :
    [entry "a" "b"] ≠ [] ∧
    jsonData specEncoder [entry "a" "b"] =
      specEncoder.UnescapeHTML
        ("[" ++
          joinWith ","
            ([entry "a" "b"].map (fun info =>
              "\n   " ++
                ("\x7b" ++ "\n      " ++
                  "\"id\": " ++ specEncoder.Quote info.ID ++ "," ++ "\n      " ++
                  "\"translation\": " ++
                  marshalValue specEncoder "" "   " 2 info.Translation ++ "," ++
                  "\n      " ++
                  "\"modified\": " ++ (if info.Modified then "true" else "false") ++
                  "\n   " ++ "\x7d"))) ++
          "\n" ++ "]") :=
  ⟨by simp, catalog_indented_three specEncoder [entry "a" "b"] (by simp)⟩

/-- C19, amended: for an entry with a templated id and a plural mapping whose
string values are all templated, if at least one value has an argument of the
id other than `count` missing or an argument the id does not declare, the
placeholder check returns true, whatever the other values are and in whatever
order the values are visited. -/
theorem plural_violation_flagged (X : Externals) (stringInfo : I18nStringInfo)
    (pairs : List (String × Json))
    (hid : X.IsTemplatedString stringInfo.ID = true)
    (htr : stringInfo.Translation = Json.obj pairs)
    (hall : ∀ t ∈ pairs.filterMap (fun kv => stringOf kv.2), X.IsTemplatedString t = true)
    (hviol : ∃ t ∈ pairs.filterMap (fun kv => stringOf kv.2),
      ¬ ((X.GetTemplatedStringArgs stringInfo.ID).toFinset \ {"count"} ⊆
            (X.GetTemplatedStringArgs t).toFinset) ∨
      ¬ ((X.GetTemplatedStringArgs t).toFinset ⊆
            (X.GetTemplatedStringArgs stringInfo.ID).toFinset)) :
    isTemplatedStringTranslationInvalid X stringInfo = some true := by
  unfold isTemplatedStringTranslationInvalid I18nStringInfo.Translations
  rw [htr]
  simp only [hid, Bool.not_true, Bool.false_eq_true, if_false]
  congr 1
  apply invalidAmong_of_violation X stringInfo.ID _ hall
  obtain ⟨t, ht, hv⟩ := hviol
  refine ⟨t, ht, ?_⟩
  rw [invalidAmong_single X stringInfo.ID t (hall t ht)]
  exact decide_eq_true hv

/-- Witness of C19, amended: the id `Hi {name}` with the plural mapping
`one: Hola {name}`, `other: Hola {nom}`. -/
theorem plural_violation_flagged_witness :
    (∀ t ∈ [("one", Json.str "Hola {name}"), ("other", Json.str "Hola {nom}")].filterMap
        (fun kv => stringOf kv.2), specExternals.IsTemplatedString t = true) ∧
    isTemplatedStringTranslationInvalid specExternals
      { ID := "Hi {name}"
        Translation :=
          Json.obj [("one", Json.str "Hola {name}"), ("other", Json.str "Hola {nom}")]
        Modified := false } = some true :=
  ⟨by decide,
    plural_violation_flagged specExternals
      { ID := "Hi {name}"
        Translation :=
          Json.obj [("one", Json.str "Hola {name}"), ("other", Json.str "Hola {nom}")]
        Modified := false }
      [("one", Json.str "Hola {name}"), ("other", Json.str "Hola {nom}")]
      (by decide) rfl (by decide) ⟨"Hola {nom}", by decide, Or.inr (by decide)⟩⟩

/-- Counterexample to C21 as stated: source and target load, the target entry
`Hi {name}` has the number 3 as translation, and `verify` panics: it returns
neither nil nor an error. -/
theorem verify_panic_counterexample :
    (filesOf [("en.json", [entry "Hi {name}" "Hi {name}"]),
              ("es.json", [{ ID := "Hi {name}", Translation := Json.number "3",
                             Modified := false }])]).load "en.json" =
      Except.ok [entry "Hi {name}" "Hi {name}"] ∧
    (filesOf [("en.json", [entry "Hi {name}" "Hi {name}"]),
              ("es.json", [{ ID := "Hi {name}", Translation := Json.number "3",
                             Modified := false }])]).load "es.json" =
      Except.ok [{ ID := "Hi {name}", Translation := Json.number "3", Modified := false }] ∧
    I18nStringInfo.Translations
      { ID := "Hi {name}", Translation := Json.number "3", Modified := false } = none ∧
    (verify specExternals (verifierOf ["es.json"])
      (filesOf [("en.json", [entry "Hi {name}" "Hi {name}"]),
                ("es.json", [{ ID := "Hi {name}", Translation := Json.number "3",
                               Modified := false }])])
      "en.json" "es.json").isNone = true :=
  ⟨rfl, rfl, rfl, by decide⟩

/-- C21, amended: `verify` returns nil or an error, without a panic, whenever
every target entry whose id is templated and occurs in the source catalog has
a string or a mapping as translation (also when a catalog does not load, is
empty or repeats an id); and it panics when, after entries whose translations
are strings or mappings, it reaches an entry with a templated id of the source
catalog, not met before in the target, whose translation has another shape. -/
theorem verify_panics_only_on_unknown_shape (X : Externals) (vs : verifyStrings)
    (fs : FileSystem) (inputFilename targetFilename : String) :
    ((∀ source target, fs.load inputFilename = Except.ok source →
        fs.load targetFilename = Except.ok target →
        ∀ e ∈ target, X.IsTemplatedString e.ID = true → e.ID ∈ idsOf source →
          e.Translations ≠ none) →
      (verify X vs fs inputFilename targetFilename).isSome = true) ∧
    (∀ (source pre post : List I18nStringInfo) (e : I18nStringInfo),
      fs.load inputFilename = Except.ok source → source ≠ [] → (idsOf source).Nodup →
      fs.load targetFilename = Except.ok (pre ++ e :: post) →
      (∀ p ∈ pre, p.Translations ≠ none) →
      X.IsTemplatedString e.ID = true → e.ID ∈ idsOf source → e.ID ∉ idsOf pre →
      e.Translations = none →
      verify X vs fs inputFilename targetFilename = none) := by
  have hkeys : ∀ (source : List I18nStringInfo) (k : String),
      InfoMap.has (source.map (fun i => (i.ID, i))) k = true ↔ k ∈ idsOf source := by
    intro source k
    rw [has_iff]
    simp [keysForI18nStringInfoMap, idsOf, List.map_map, Function.comp_def]
  constructor
  · intro hshape
    unfold verify LoadI18nStringInfos
    cases hsrc : fs.load inputFilename with
    | error e => rfl
    | ok source =>
      simp only
      by_cases hlen : (source.length == 0) = true
      · rw [if_pos hlen]; rfl
      · rw [if_neg hlen]
        by_cases hnd : (idsOf source).Nodup
        · rw [CreateI18nStringInfoMap_of_nodup source hnd]
          simp only
          cases htgt : fs.load targetFilename with
          | error e => rfl
          | ok target =>
            simp only
            have hloop := verifyLoop_isSome_of X target
              { inputMap := source.map (fun i => (i.ID, i))
                targetExtraStringInfos := []
                targetInvalidStringInfos := [] }
              (fun e he ht hhas =>
                hshape source target hsrc htgt e he ht ((hkeys source e.ID).mp hhas))
            cases hl : verifyLoop X
                { inputMap := source.map (fun i => (i.ID, i))
                  targetExtraStringInfos := []
                  targetInvalidStringInfos := [] } target with
            | none => rw [hl] at hloop; exact Bool.noConfusion hloop
            | some d => rfl
        · obtain ⟨e, he⟩ := CreateI18nStringInfoMap_of_dup source hnd
          rw [he]
          rfl
  · intro source pre post e hsrc hne hnd htgt hpre ht hin hfresh hshape
    rw [verify_of_loads X vs fs inputFilename targetFilename source (pre ++ e :: post)
      (source.map (fun i => (i.ID, i))) hsrc hne
      (CreateI18nStringInfoMap_of_nodup source hnd) htgt]
    obtain ⟨d1, hd1⟩ := Option.isSome_iff_exists.mp
      (verifyLoop_isSome X pre
        { inputMap := source.map (fun i => (i.ID, i))
          targetExtraStringInfos := []
          targetInvalidStringInfos := [] } hpre)
    have hhas : d1.inputMap.has e.ID = true := by
      rw [verifyLoop_inputMap X pre _ d1 hd1]
      have h0 := (hkeys source e.ID).mpr hin
      simp only [InfoMap.has, List.any_eq_true, beq_iff_eq, List.mem_filter,
        decide_eq_true_eq] at h0 ⊢
      obtain ⟨kv, hkv, hk⟩ := h0
      exact ⟨kv, ⟨hkv, by rw [hk]; exact hfresh⟩, hk⟩
    rw [verifyLoop_panics X _ d1 pre post e hd1 ht hhas hshape]
    rfl

/-- Witness of C21, amended: the target entry `Hi {name}` with a plural mapping
is checked without panic; the entry `count` with the number 3 as translation
has an id that is not templated and is not checked at all. -/
theorem verify_panics_only_on_unknown_shape_witness :
    (verify specExternals (verifierOf ["es.json"])
      (filesOf [("en.json", [entry "Hi {name}" "Hi {name}", entry "count" "count"]),
                ("es.json",
                  [{ ID := "Hi {name}"
                     Translation := Json.obj [("one", Json.str "Hola {name}")]
                     Modified := false },
                   { ID := "count", Translation := Json.number "3", Modified := false }])])
      "en.json" "es.json").isSome = true :=
  (verify_panics_only_on_unknown_shape specExternals (verifierOf ["es.json"])
    (filesOf [("en.json", [entry "Hi {name}" "Hi {name}", entry "count" "count"]),
              ("es.json",
                [{ ID := "Hi {name}"
                   Translation := Json.obj [("one", Json.str "Hola {name}")]
                   Modified := false },
                 { ID := "count", Translation := Json.number "3", Modified := false }])])
    "en.json" "es.json").1
    (fun source target hsrc htgt e he ht _ => by
      have h2 : target =
          [{ ID := "Hi {name}"
             Translation := Json.obj [("one", Json.str "Hola {name}")]
             Modified := false },
           { ID := "count", Translation := Json.number "3", Modified := false }] :=
        (Except.ok.inj htgt).symm
      subst h2
      rcases List.mem_cons.mp he with rfl | he
      · exact Option.noConfusion
      · rcases List.mem_cons.mp he with rfl | he
        · exact absurd ht (by decide)
        · exact absurd he (List.not_mem_nil _))

end I18n4go
